import Mathlib

/-
Verification development for the market-data service of the
Crypto-Trading-Platform repository.

The embedding models:
  * DataCollector._update_best_price (app/services/data_collector.py),
  * RedisService.set_price history ring and the read methods
    (app/services/redis_service.py),
  * WebSocketManager connection registry operations
    (app/core/websocket_manager.py).

Numeric values carried in JSON dictionaries are modelled over Rat.
A JSON dictionary field that may be absent or null is modelled by
JField; Python raising an exception is modelled by Except Unit, and a
try/except that logs and swallows is the handler turning Except into a
plain value.
-/

namespace CryptoMarketData

/-- Value of one field of a stored JSON price dictionary: the key can be
absent, present with value null, or present with a numeric value. -/
inductive JField where
  | missing : JField
  | null : JField
  | num : ℚ → JField
deriving DecidableEq

/-- One exchange's stored quote dictionary for a symbol, as written by
DataCollector._collect_price_from_exchange: only the fields that
_update_best_price reads are modelled. -/
structure ExchangeData where
  exchange : String
  price : JField
  bid : JField
  ask : JField
  volume : JField
deriving DecidableEq

/-- Result of the expression exchange_data.get ("bid", 0): an absent key
yields the default 0, a null value yields Python None (no rational),
a numeric value yields itself. -/
def bidValue : JField → Option ℚ
  | JField.missing => some 0
  | JField.null => none
  | JField.num x => some x

/-- Loop state of the exchange scan in _update_best_price: running best
bid (initialised 0), running best ask (none models the float inf
sentinel), the quote that currently holds the best ask, and the list of
contributing quotes in scan order. -/
structure FoldState where
  bestBid : ℚ
  bestAsk : Option ℚ
  bestData : Option ExchangeData
  prices : List ExchangeData

/-- One iteration of the exchange loop in _update_best_price.  A missing
store entry is skipped; a present quote is appended to the contributing
list, then its bid is compared against the running best bid and its ask
against the running best ask.  Comparing a null bid or ask against a
number raises TypeError, modelled as Except.error. -/
def stepQuote (st : FoldState) (d : Option ExchangeData) : Except Unit FoldState :=
  match d with
  | none => Except.ok st
  | some q =>
    match bidValue q.bid with
    | none => Except.error ()
    | some b =>
      let bid1 := if st.bestBid < b then b else st.bestBid
      match q.ask with
      | JField.null => Except.error ()
      | JField.missing =>
          Except.ok { bestBid := bid1, bestAsk := st.bestAsk,
                      bestData := st.bestData, prices := st.prices ++ [q] }
      | JField.num a =>
          let takeNew : Bool :=
            match st.bestAsk with
            | none => true
            | some x => decide (a < x)
          if takeNew then
            Except.ok { bestBid := bid1, bestAsk := some a,
                        bestData := some q, prices := st.prices ++ [q] }
          else
            Except.ok { bestBid := bid1, bestAsk := st.bestAsk,
                        bestData := st.bestData, prices := st.prices ++ [q] }

/-- The expression sum (p ["price"] for p in exchange_prices): a missing
price key raises KeyError and a null price raises TypeError in the sum,
both modelled as Except.error. -/
def sumPrices : List ExchangeData → Except Unit ℚ
  | [] => Except.ok 0
  | d :: rest =>
    match d.price with
    | JField.missing => Except.error ()
    | JField.null => Except.error ()
    | JField.num x =>
      match sumPrices rest with
      | Except.error e => Except.error e
      | Except.ok s => Except.ok (x + s)

/-- The expression sum (p.get ("volume", 0) for p in exchange_prices): a
missing volume contributes the default 0, a null volume raises
TypeError in the sum. -/
def sumVolumes : List ExchangeData → Except Unit ℚ
  | [] => Except.ok 0
  | d :: rest =>
    match d.volume with
    | JField.missing => sumVolumes rest
    | JField.null => Except.error ()
    | JField.num x =>
      match sumVolumes rest with
      | Except.error e => Except.error e
      | Except.ok s => Except.ok (x + s)

/-- The consolidated best-price dictionary written by
_update_best_price (timestamp field omitted from the model). -/
structure BestPrice where
  symbol : String
  price : ℚ
  best_bid : ℚ
  best_ask : ℚ
  spread : ℚ
  volume_24h : ℚ
  exchange_count : ℕ
  exchanges : List String
deriving DecidableEq

/-- Body of _update_best_price before its try/except: scan the
per-exchange store entries (in exchange order; none models a missing
entry or a failed read, both yielding None from get_exchange_data),
then, only when best_price_data was set, build the consolidated
dictionary.  Except.ok none means the function returned without writing
anything. -/
def update_best_price_exc (symbol : String) (store : List (Option ExchangeData)) :
    Except Unit (Option BestPrice) :=
  match store.foldlM stepQuote { bestBid := 0, bestAsk := none, bestData := none, prices := [] } with
  | Except.error e => Except.error e
  | Except.ok st =>
    match st.bestData with
    | none => Except.ok none
    | some _ =>
      match sumPrices st.prices with
      | Except.error e => Except.error e
      | Except.ok totalP =>
        match sumVolumes st.prices with
        | Except.error e => Except.error e
        | Except.ok totalV =>
          let avg := totalP / (st.prices.length : ℚ)
          let ask := st.bestAsk.getD 0
          Except.ok (some { symbol := symbol, price := avg, best_bid := st.bestBid,
                            best_ask := ask, spread := ask - st.bestBid,
                            volume_24h := totalV, exchange_count := st.prices.length,
                            exchanges := st.prices.map ExchangeData.exchange })

/-- DataCollector._update_best_price with its surrounding try/except:
any exception is caught and logged, and nothing is written.  The result
is the consolidated price written to the store for the symbol, or none
when no write happened. -/
def update_best_price (symbol : String) (store : List (Option ExchangeData)) :
    Option BestPrice :=
  match update_best_price_exc symbol store with
  | Except.ok r => r
  | Except.error _ => none

/-- Numeric values of one JSON field across a list of quotes, keeping
only fields present with a numeric value. -/
def numericsOf (f : ExchangeData → JField) (l : List ExchangeData) : List ℚ :=
  l.filterMap fun q =>
    match f q with
    | JField.num b => some b
    | _ => none

/-- Running maximum, seeded with a starting value, mirroring the
strict-comparison update of best_bid. -/
def foldMax (x : ℚ) (l : List ℚ) : ℚ :=
  l.foldl (fun m b => if m < b then b else m) x

/-- One strict-comparison update of the running minimum ask; none is
the initial infinity sentinel, which any number beats. -/
def minStep (o : Option ℚ) (a : ℚ) : Option ℚ :=
  match o with
  | none => some a
  | some x => if a < x then some a else some x

/-- Running minimum over asks, seeded with the infinity sentinel or an
already-seen minimum. -/
def foldMin (o : Option ℚ) (l : List ℚ) : Option ℚ :=
  l.foldl minStep o

lemma foldMax_spec (l : List ℚ) : ∀ x : ℚ,
    (foldMax x l = x ∨ foldMax x l ∈ l) ∧ x ≤ foldMax x l ∧ ∀ b ∈ l, b ≤ foldMax x l := by
  induction l with
  | nil => intro x; simp [foldMax]
  | cons b l ih =>
    intro x
    have hstep : foldMax x (b :: l) = foldMax (if x < b then b else x) l := rfl
    obtain ⟨hmem, hle, hub⟩ := ih (if x < b then b else x)
    refine ⟨?_, ?_, ?_⟩
    · rcases hmem with h | h
      · rw [hstep, h]
        by_cases hxb : x < b
        · simp [hxb]
        · simp [hxb]
      · right; rw [hstep]; exact List.mem_cons_of_mem _ h
    · rw [hstep]
      refine le_trans ?_ hle
      by_cases hxb : x < b
      · simp [hxb]; exact le_of_lt hxb
      · simp [hxb]
    · intro c hc
      rw [hstep]
      rcases List.mem_cons.mp hc with h | h
      · subst h
        refine le_trans ?_ hle
        by_cases hxb : x < c
        · simp [hxb]
        · simp [hxb]; exact le_of_not_lt hxb
      · exact hub c h

lemma minStep_isSome (o : Option ℚ) (a : ℚ) : (minStep o a).isSome = true := by
  cases o with
  | none => rfl
  | some x => by_cases hax : a < x <;> simp [minStep, hax]

lemma minStep_cases (o : Option ℚ) (a y : ℚ) (h : minStep o a = some y) :
    y = a ∨ o = some y := by
  cases o with
  | none => left; simpa [minStep] using h.symm
  | some x =>
    by_cases hax : a < x
    · left; simp [minStep, hax] at h; exact h.symm
    · right; simp [minStep, hax] at h; rw [h]

lemma minStep_le_a (o : Option ℚ) (a y : ℚ) (h : minStep o a = some y) : y ≤ a := by
  cases o with
  | none =>
    simp [minStep] at h
    exact le_of_eq h.symm
  | some x =>
    by_cases hax : a < x
    · simp [minStep, hax] at h; exact le_of_eq h.symm
    · simp [minStep, hax] at h
      exact le_trans (le_of_eq h.symm) (le_of_not_lt hax)

lemma minStep_le_seed (o : Option ℚ) (a x y : ℚ) (ho : o = some x)
    (h : minStep o a = some y) : y ≤ x := by
  subst ho
  by_cases hax : a < x
  · simp [minStep, hax] at h
    exact le_trans (le_of_eq h.symm) (le_of_lt hax)
  · simp [minStep, hax] at h; exact le_of_eq h.symm

lemma foldMin_spec (l : List ℚ) : ∀ o : Option ℚ,
    ((foldMin o l).isSome = (o.isSome || !l.isEmpty))
    ∧ (∀ m, foldMin o l = some m →
        (o = some m ∨ m ∈ l)
        ∧ (∀ x, o = some x → m ≤ x)
        ∧ (∀ a ∈ l, m ≤ a)) := by
  induction l with
  | nil =>
    intro o
    refine ⟨by simp [foldMin], ?_⟩
    intro m hm
    refine ⟨Or.inl hm, ?_, by simp⟩
    intro x hx
    have hm' : o = some m := hm
    rw [hx] at hm'
    exact le_of_eq (Option.some_inj.mp hm').symm
  | cons a l ih =>
    intro o
    have hstep : foldMin o (a :: l) = foldMin (minStep o a) l := rfl
    obtain ⟨hsome, hrest⟩ := ih (minStep o a)
    have hms := minStep_isSome o a
    constructor
    · rw [hstep, hsome, hms]
      simp
    · intro m hm
      rw [hstep] at hm
      obtain ⟨hmem, hstart, hub⟩ := hrest m hm
      refine ⟨?_, ?_, ?_⟩
      · rcases hmem with h | h
        · rcases minStep_cases o a m h with h2 | h2
          · right; rw [h2]; exact List.mem_cons_self a l
          · left; exact h2
        · right; exact List.mem_cons_of_mem _ h
      · intro x hox
        rcases hmem with h | h
        · exact minStep_le_seed o a x m hox h
        · obtain ⟨y, hy⟩ := Option.isSome_iff_exists.mp hms
          exact le_trans (hstart y hy) (minStep_le_seed o a x y hox hy)
      · intro c hc
        rcases List.mem_cons.mp hc with h | h
        · subst h
          rcases hmem with h2 | h2
          · exact minStep_le_a o c m h2
          · obtain ⟨y, hy⟩ := Option.isSome_iff_exists.mp hms
            exact le_trans (hstart y hy) (minStep_le_a o c y hy)
        · exact hub c h

lemma foldlM_stepQuote_spec (store : List (Option ExchangeData)) :
    ∀ st : FoldState,
    (∀ q ∈ store.reduceOption,
        (∃ b, q.bid = JField.num b)
        ∧ (q.ask = JField.missing ∨ ∃ a, q.ask = JField.num a)) →
    ∃ st', store.foldlM stepQuote st = Except.ok st'
      ∧ st'.prices = st.prices ++ store.reduceOption
      ∧ st'.bestBid = foldMax st.bestBid (numericsOf ExchangeData.bid store.reduceOption)
      ∧ st'.bestAsk = foldMin st.bestAsk (numericsOf ExchangeData.ask store.reduceOption)
      ∧ (st.bestData.isSome = st.bestAsk.isSome → st'.bestData.isSome = st'.bestAsk.isSome) := by
  induction store with
  | nil =>
    intro st h
    exact ⟨st, rfl, by simp [numericsOf, foldMax, foldMin], rfl, rfl, fun h => h⟩
  | cons d rest ih =>
    intro st h
    cases d with
    | none =>
      have hred : (none :: rest : List (Option ExchangeData)).reduceOption = rest.reduceOption := by
        simp [List.reduceOption]
      have hfold : (none :: rest).foldlM stepQuote st = rest.foldlM stepQuote st := by
        rw [List.foldlM_cons]; rfl
      rw [hred] at h ⊢
      obtain ⟨st', h1, h2, h3, h4, h5⟩ := ih st h
      exact ⟨st', by rw [hfold]; exact h1, h2, h3, h4, h5⟩
    | some q =>
      have hq := h q (by simp [List.reduceOption])
      obtain ⟨⟨b, hbid⟩, hask⟩ := hq
      have hred : (some q :: rest : List (Option ExchangeData)).reduceOption
          = q :: rest.reduceOption := by simp [List.reduceOption]
      have htail : ∀ p ∈ rest.reduceOption,
          (∃ b, p.bid = JField.num b)
          ∧ (p.ask = JField.missing ∨ ∃ a, p.ask = JField.num a) := by
        intro p hp
        exact h p (by rw [hred]; exact List.mem_cons_of_mem _ hp)
      have hbids : numericsOf ExchangeData.bid (q :: rest.reduceOption)
          = b :: numericsOf ExchangeData.bid rest.reduceOption := by
        simp [numericsOf, hbid]
      rcases hask with hask | ⟨a, hask⟩
      · -- ask absent: the inf sentinel comparison is false, nothing updates
        set st1 : FoldState :=
          { bestBid := if st.bestBid < b then b else st.bestBid,
            bestAsk := st.bestAsk, bestData := st.bestData,
            prices := st.prices ++ [q] } with hst1
        have hstep : stepQuote st (some q) = Except.ok st1 := by
          simp [stepQuote, hbid, hask, bidValue]
        have hfold : (some q :: rest).foldlM stepQuote st = rest.foldlM stepQuote st1 := by
          rw [List.foldlM_cons, hstep]; rfl
        have hasks : numericsOf ExchangeData.ask (q :: rest.reduceOption)
            = numericsOf ExchangeData.ask rest.reduceOption := by
          simp [numericsOf, hask]
        obtain ⟨st', h1, h2, h3, h4, h5⟩ := ih st1 htail
        refine ⟨st', by rw [hfold]; exact h1, ?_, ?_, ?_, ?_⟩
        · rw [hred, h2, hst1]; simp
        · rw [hred, hbids, h3, hst1, foldMax, foldMax]
          simp [List.foldl_cons]
        · rw [hred, hasks, h4, hst1]
        · intro hinv
          exact h5 (by rw [hst1]; exact hinv)
      · -- ask present with numeric value a
        set st1 : FoldState :=
          { bestBid := if st.bestBid < b then b else st.bestBid,
            bestAsk := minStep st.bestAsk a,
            bestData := if (match st.bestAsk with
                            | none => true
                            | some x => decide (a < x)) then some q else st.bestData,
            prices := st.prices ++ [q] } with hst1
        have hstep : stepQuote st (some q) = Except.ok st1 := by
          cases hsa : st.bestAsk with
          | none => simp [stepQuote, hbid, hask, bidValue, hst1, minStep, hsa]
          | some x =>
            by_cases hax : a < x
            · simp [stepQuote, hbid, hask, bidValue, hst1, minStep, hsa, hax]
            · simp [stepQuote, hbid, hask, bidValue, hst1, minStep, hsa, hax]
        have hfold : (some q :: rest).foldlM stepQuote st = rest.foldlM stepQuote st1 := by
          rw [List.foldlM_cons, hstep]; rfl
        have hasks : numericsOf ExchangeData.ask (q :: rest.reduceOption)
            = a :: numericsOf ExchangeData.ask rest.reduceOption := by
          simp [numericsOf, hask]
        have hinv1 : st.bestData.isSome = st.bestAsk.isSome →
            st1.bestData.isSome = st1.bestAsk.isSome := by
          intro hinv
          rw [hst1]
          cases hsa : st.bestAsk with
          | none => simp [minStep]
          | some x =>
            by_cases hax : a < x
            · simp [minStep, hax]
            · simp [minStep, hax]
              rw [hsa] at hinv
              simpa using hinv
        obtain ⟨st', h1, h2, h3, h4, h5⟩ := ih st1 htail
        refine ⟨st', by rw [hfold]; exact h1, ?_, ?_, ?_, ?_⟩
        · rw [hred, h2, hst1]; simp
        · rw [hred, hbids, h3, hst1, foldMax, foldMax]
          simp [List.foldl_cons]
        · rw [hred, hasks, h4, hst1, foldMin, foldMin]
          simp [List.foldl_cons, minStep]
        · intro hinv
          exact h5 (hinv1 hinv)

lemma numericsOf_of_map (f : ExchangeData → JField) :
    ∀ (l : List ExchangeData) (qs : List ℚ), l.map f = qs.map JField.num →
    numericsOf f l = qs := by
  intro l
  induction l with
  | nil =>
    intro qs h
    cases qs with
    | nil => rfl
    | cons q qs => simp at h
  | cons d rest ih =>
    intro qs h
    cases qs with
    | nil => simp at h
    | cons q qs =>
      simp only [List.map_cons, List.cons.injEq] at h
      obtain ⟨h1, h2⟩ := h
      simp [numericsOf, h1, List.filterMap_cons]
      exact ih qs h2

lemma numericsOf_ne_nil_iff (f : ExchangeData → JField) (l : List ExchangeData) :
    numericsOf f l ≠ [] ↔ ∃ q ∈ l, ∃ a, f q = JField.num a := by
  induction l with
  | nil => simp [numericsOf]
  | cons d rest ih =>
    cases hfd : f d with
    | missing => simp [numericsOf, List.filterMap_cons, hfd] at ih ⊢; simpa [hfd] using ih
    | null => simp [numericsOf, List.filterMap_cons, hfd] at ih ⊢; simpa [hfd] using ih
    | num a => simp [numericsOf, List.filterMap_cons, hfd]

lemma sumPrices_of_map :
    ∀ (l : List ExchangeData) (ps : List ℚ), l.map ExchangeData.price = ps.map JField.num →
    sumPrices l = Except.ok ps.sum := by
  intro l
  induction l with
  | nil =>
    intro ps h
    cases ps with
    | nil => rfl
    | cons p ps => simp at h
  | cons d rest ih =>
    intro ps h
    cases ps with
    | nil => simp at h
    | cons p ps =>
      simp only [List.map_cons, List.cons.injEq] at h
      obtain ⟨h1, h2⟩ := h
      simp [sumPrices, h1, ih ps h2]

lemma sumVolumes_of_map :
    ∀ (l : List ExchangeData) (vs : List ℚ), l.map ExchangeData.volume = vs.map JField.num →
    sumVolumes l = Except.ok vs.sum := by
  intro l
  induction l with
  | nil =>
    intro vs h
    cases vs with
    | nil => rfl
    | cons v vs => simp at h
  | cons d rest ih =>
    intro vs h
    cases vs with
    | nil => simp at h
    | cons v vs =>
      simp only [List.map_cons, List.cons.injEq] at h
      obtain ⟨h1, h2⟩ := h
      simp [sumVolumes, h1, ih vs h2]

lemma sumPrices_ok_of (l : List ExchangeData)
    (h : ∀ q ∈ l, ∃ p, q.price = JField.num p) : ∃ s, sumPrices l = Except.ok s := by
  induction l with
  | nil => exact ⟨0, rfl⟩
  | cons d rest ih =>
    obtain ⟨p, hp⟩ := h d (List.mem_cons_self _ _)
    obtain ⟨s, hs⟩ := ih (fun q hq => h q (List.mem_cons_of_mem _ hq))
    exact ⟨p + s, by simp [sumPrices, hp, hs]⟩

lemma sumVolumes_ok_of (l : List ExchangeData)
    (h : ∀ q ∈ l, q.volume ≠ JField.null) : ∃ s, sumVolumes l = Except.ok s := by
  induction l with
  | nil => exact ⟨0, rfl⟩
  | cons d rest ih =>
    obtain ⟨s, hs⟩ := ih (fun q hq => h q (List.mem_cons_of_mem _ hq))
    cases hv : d.volume with
    | missing => exact ⟨s, by simp [sumVolumes, hv, hs]⟩
    | null => exact absurd hv (h d (List.mem_cons_self _ _))
    | num x => exact ⟨x + s, by simp [sumVolumes, hv, hs]⟩

/-- C1: for every symbol with a non-empty set of contributing
per-exchange quotes (all fields present and numeric, bids nonnegative),
the consolidated price written by _update_best_price has best_bid equal
to the maximum contributing bid, best_ask equal to the minimum
contributing ask, price equal to the unweighted arithmetic mean of the
contributing last prices, volume_24h equal to the sum of the
contributing base volumes, and spread equal to best_ask minus
best_bid. -/
theorem best_price_consolidation_formula
    (sym : String) (store : List (Option ExchangeData))
    (bids asks prices vols : List ℚ)
    (hne : store.reduceOption ≠ [])
    (hb : store.reduceOption.map ExchangeData.bid = bids.map JField.num)
    (hbnn : ∀ b ∈ bids, 0 ≤ b)
    (ha : store.reduceOption.map ExchangeData.ask = asks.map JField.num)
    (hp : store.reduceOption.map ExchangeData.price = prices.map JField.num)
    (hv : store.reduceOption.map ExchangeData.volume = vols.map JField.num) :
    ∃ bp, update_best_price sym store = some bp
      ∧ bp.best_bid ∈ bids ∧ (∀ b ∈ bids, b ≤ bp.best_bid)
      ∧ bp.best_ask ∈ asks ∧ (∀ a ∈ asks, bp.best_ask ≤ a)
      ∧ bp.price = prices.sum / (store.reduceOption.length : ℚ)
      ∧ bp.volume_24h = vols.sum
      ∧ bp.spread = bp.best_ask - bp.best_bid := by
  have hwf : ∀ q ∈ store.reduceOption,
      (∃ b, q.bid = JField.num b)
      ∧ (q.ask = JField.missing ∨ ∃ a, q.ask = JField.num a) := by
    intro q hq
    constructor
    · have : q.bid ∈ store.reduceOption.map ExchangeData.bid := List.mem_map_of_mem _ hq
      rw [hb] at this
      obtain ⟨b, _, hbq⟩ := List.mem_map.mp this
      exact ⟨b, hbq.symm⟩
    · right
      have : q.ask ∈ store.reduceOption.map ExchangeData.ask := List.mem_map_of_mem _ hq
      rw [ha] at this
      obtain ⟨a, _, haq⟩ := List.mem_map.mp this
      exact ⟨a, haq.symm⟩
  obtain ⟨st', h1, h2, h3x, h4x, h5x⟩ :=
    foldlM_stepQuote_spec store { bestBid := 0, bestAsk := none, bestData := none, prices := [] } hwf
  simp only [List.nil_append] at h2
  rw [numericsOf_of_map ExchangeData.bid _ bids hb] at h3x
  rw [numericsOf_of_map ExchangeData.ask _ asks ha] at h4x
  have h3 : st'.bestBid = foldMax 0 bids := h3x
  have h4 : st'.bestAsk = foldMin none asks := h4x
  have h5 : st'.bestData.isSome = st'.bestAsk.isSome := h5x rfl
  have hlen_b : store.reduceOption.length = bids.length := by
    have := congrArg List.length hb
    simpa using this
  have hlen_a : store.reduceOption.length = asks.length := by
    have := congrArg List.length ha
    simpa using this
  have hasks_ne : asks ≠ [] := by
    intro hnil
    apply hne
    rw [hnil] at hlen_a
    simpa using List.length_eq_zero.mp (by simpa using hlen_a)
  have hbids_ne : bids ≠ [] := by
    intro hnil
    apply hne
    rw [hnil] at hlen_b
    simpa using List.length_eq_zero.mp (by simpa using hlen_b)
  -- the minimum ask exists
  obtain ⟨hmin_some, hmin_rest⟩ := foldMin_spec asks (none : Option ℚ)
  have hsome : (foldMin none asks).isSome = true := by
    rw [hmin_some]
    simp [List.isEmpty_iff, hasks_ne]
  obtain ⟨m, hm⟩ := Option.isSome_iff_exists.mp hsome
  obtain ⟨hm_mem, _, hm_ub⟩ := hmin_rest m hm
  have hm_in : m ∈ asks := by
    rcases hm_mem with h | h
    · exact absurd h (by simp)
    · exact h
  -- best_price_data was set
  have hbd_some : st'.bestData.isSome = true := by
    rw [h5, h4, hm]
    rfl
  obtain ⟨d0, hd0⟩ := Option.isSome_iff_exists.mp hbd_some
  -- the sums compute
  have hsump : sumPrices st'.prices = Except.ok prices.sum := by
    rw [h2]; exact sumPrices_of_map _ prices hp
  have hsumv : sumVolumes st'.prices = Except.ok vols.sum := by
    rw [h2]; exact sumVolumes_of_map _ vols hv
  have hask_val : st'.bestAsk = some m := by rw [h4]; exact hm
  refine ⟨{ symbol := sym, price := prices.sum / (st'.prices.length : ℚ),
            best_bid := st'.bestBid, best_ask := m, spread := m - st'.bestBid,
            volume_24h := vols.sum, exchange_count := st'.prices.length,
            exchanges := st'.prices.map ExchangeData.exchange }, ?_, ?_, ?_, ?_, ?_, ?_, ?_, ?_⟩
  · unfold update_best_price update_best_price_exc
    rw [h1]
    simp only [hd0, hsump, hsumv, hask_val]
    rfl
  · -- best_bid is one of the bids
    show st'.bestBid ∈ bids
    rw [h3]
    obtain ⟨hmem0, _, hub0⟩ := foldMax_spec bids 0
    rcases hmem0 with h | h
    · obtain ⟨b0, hb0mem⟩ := List.exists_mem_of_ne_nil bids hbids_ne
      have hub := hub0 b0 hb0mem
      rw [h] at hub
      have hb00 : b0 = 0 := le_antisymm hub (hbnn b0 hb0mem)
      rw [h, ← hb00]
      exact hb0mem
    · exact h
  · -- best_bid dominates every bid
    intro b hbmem
    show b ≤ st'.bestBid
    rw [h3]
    obtain ⟨_, _, hub0⟩ := foldMax_spec bids 0
    exact hub0 b hbmem
  · exact hm_in
  · intro a hamem
    exact hm_ub a hamem
  · rw [h2]
  · rfl
  · rfl

/-- C1 witness: the spec scenario with two exchanges quoting bid/ask
(100, 101) and (99, 102). -/
theorem best_price_consolidation_formula_witness :
    ∃ bp, update_best_price "BTC/USDT"
        [some { exchange := "binance", price := JField.num 101, bid := JField.num 100,
                ask := JField.num 101, volume := JField.num 2 },
         some { exchange := "kraken", price := JField.num 99, bid := JField.num 99,
                ask := JField.num 102, volume := JField.num 3 }] = some bp
      ∧ bp.best_bid ∈ [(100 : ℚ), 99] ∧ (∀ b ∈ [(100 : ℚ), 99], b ≤ bp.best_bid)
      ∧ bp.best_ask ∈ [(101 : ℚ), 102] ∧ (∀ a ∈ [(101 : ℚ), 102], bp.best_ask ≤ a)
      ∧ bp.price = ([(101 : ℚ), 99].sum
          / (([some { exchange := "binance", price := JField.num 101, bid := JField.num 100,
                      ask := JField.num 101, volume := JField.num 2 },
               some { exchange := "kraken", price := JField.num 99, bid := JField.num 99,
                      ask := JField.num 102, volume := JField.num 3 }]
              : List (Option ExchangeData)).reduceOption.length : ℚ))
      ∧ bp.volume_24h = [(2 : ℚ), 3].sum
      ∧ bp.spread = bp.best_ask - bp.best_bid :=
  best_price_consolidation_formula "BTC/USDT" _ [100, 99] [101, 102] [101, 99] [2, 3]
    (by decide) (by decide) (by decide) (by decide) (by decide) (by decide)

/-- C2 counterexample: a fresh per-exchange quote exists (the store's
contributing set is non-empty) yet _update_best_price writes nothing,
because the quote carries no ask, so best_price_data is never set. -/
theorem quote_without_ask_produces_no_write :
    update_best_price "BTC/USDT"
        [some { exchange := "binance", price := JField.num 50000,
                bid := JField.num 100, ask := JField.missing, volume := JField.num 3 }] = none
    ∧ ([some { exchange := "binance", price := JField.num 50000,
               bid := JField.num 100, ask := JField.missing, volume := JField.num 3 }]
        : List (Option ExchangeData)).reduceOption ≠ [] := by
  exact ⟨rfl, by decide⟩

/-- C2 (amended): a consolidated price is produced for a symbol exactly
when at least one contributing quote carries a numeric ask; in
particular, with no quotes at all, or with quotes but no observed ask,
nothing is written (so no false zero spread ever appears, because no
entry is produced at all). -/
theorem consolidated_write_iff_ask_present
    (sym : String) (store : List (Option ExchangeData))
    (hwf : ∀ q ∈ store.reduceOption,
        (∃ b, q.bid = JField.num b)
        ∧ (q.ask = JField.missing ∨ ∃ a, q.ask = JField.num a)
        ∧ (∃ p, q.price = JField.num p)
        ∧ q.volume ≠ JField.null) :
    (update_best_price sym store).isSome = true
      ↔ ∃ q ∈ store.reduceOption, ∃ a, q.ask = JField.num a := by
  obtain ⟨st', h1, h2, h3x, h4x, h5x⟩ :=
    foldlM_stepQuote_spec store { bestBid := 0, bestAsk := none, bestData := none, prices := [] }
      (fun q hq => ⟨(hwf q hq).1, (hwf q hq).2.1⟩)
  simp only [List.nil_append] at h2
  have h4 : st'.bestAsk = foldMin none (numericsOf ExchangeData.ask store.reduceOption) := h4x
  have h5 : st'.bestData.isSome = st'.bestAsk.isSome := h5x rfl
  obtain ⟨hmin_some, _⟩ :=
    foldMin_spec (numericsOf ExchangeData.ask store.reduceOption) (none : Option ℚ)
  have hask_iff : st'.bestAsk.isSome = true
      ↔ ∃ q ∈ store.reduceOption, ∃ a, q.ask = JField.num a := by
    rw [h4, hmin_some]
    simp only [Option.isSome_none, Bool.false_or, Bool.not_eq_eq_eq_not, Bool.not_false]
    rw [← numericsOf_ne_nil_iff ExchangeData.ask store.reduceOption]
    simp [List.isEmpty_iff]
  constructor
  · intro hres
    by_contra hno
    have hask_none : st'.bestAsk.isSome = false := by
      cases hsa : st'.bestAsk.isSome with
      | false => rfl
      | true => exact absurd (hask_iff.mp hsa) hno
    have hbd : st'.bestData = none := by
      cases hbd : st'.bestData with
      | none => rfl
      | some d => rw [hbd] at h5; rw [hask_none] at h5; simp at h5
    have : update_best_price sym store = none := by
      unfold update_best_price update_best_price_exc
      rw [h1]
      simp only [hbd]
    rw [this] at hres
    simp at hres
  · intro hask
    have hbd_some : st'.bestData.isSome = true := by
      rw [h5]; exact hask_iff.mpr hask
    obtain ⟨d0, hd0⟩ := Option.isSome_iff_exists.mp hbd_some
    obtain ⟨sp, hsp⟩ := sumPrices_ok_of st'.prices
      (by rw [h2]; exact fun q hq => (hwf q hq).2.2.1)
    obtain ⟨sv, hsv⟩ := sumVolumes_ok_of st'.prices
      (by rw [h2]; exact fun q hq => (hwf q hq).2.2.2)
    unfold update_best_price update_best_price_exc
    rw [h1]
    simp only [hd0, hsp, hsv]
    rfl

/-- C2 witness: a well-formed store with one quote carrying a numeric
ask produces a write, by the amended equivalence. -/
theorem consolidated_write_iff_ask_present_witness :
    (update_best_price "ETH/USDT"
        [some { exchange := "kraken", price := JField.num 99, bid := JField.num 98,
                ask := JField.num 100, volume := JField.num 2 }]).isSome = true
      ↔ ∃ q ∈ ([some { exchange := "kraken", price := JField.num 99, bid := JField.num 98,
                        ask := JField.num 100, volume := JField.num 2 }]
            : List (Option ExchangeData)).reduceOption, ∃ a, q.ask = JField.num a :=
  consolidated_write_iff_ask_present "ETH/USDT" _ (by
    intro q hq
    have hq2 : q = { exchange := "kraken", price := JField.num 99, bid := JField.num 98,
                     ask := JField.num 100, volume := JField.num 2 } := by
      rcases List.mem_singleton.mp hq with h
      exact h
    subst hq2
    exact ⟨⟨98, rfl⟩, Or.inr ⟨100, rfl⟩, ⟨99, rfl⟩, by decide⟩)

/-- C3 counterexample: a malformed field does not merely exclude its own
exchange.  With exchange one holding a null bid and exchange two holding
a fully well-formed quote, the TypeError aborts the whole computation
(caught by the surrounding try/except), so nothing at all is written for
the symbol, even though consolidation over the remaining quote alone
would have produced a consolidated price. -/
theorem null_bid_aborts_whole_consolidation :
    update_best_price "BTC/USDT"
        [some { exchange := "binance", price := JField.num 100, bid := JField.null,
                ask := JField.num 101, volume := JField.num 1 },
         some { exchange := "kraken", price := JField.num 99, bid := JField.num 98,
                ask := JField.num 100, volume := JField.num 2 }] = none
    ∧ (update_best_price "BTC/USDT"
        [some { exchange := "kraken", price := JField.num 99, bid := JField.num 98,
                ask := JField.num 100, volume := JField.num 2 }]).isSome = true := by
  constructor
  · rfl
  · rfl

lemma foldlM_stepQuote_reduceOption (store : List (Option ExchangeData)) :
    ∀ st, store.foldlM stepQuote st = (store.reduceOption.map some).foldlM stepQuote st := by
  induction store with
  | nil => intro st; rfl
  | cons d rest ih =>
    intro st
    cases d with
    | none =>
      have hl : (none :: rest).foldlM stepQuote st = rest.foldlM stepQuote st := by
        rw [List.foldlM_cons]; rfl
      rw [hl, ih st]
      simp [List.reduceOption]
    | some q =>
      have hred : ((some q :: rest : List (Option ExchangeData)).reduceOption.map some)
          = some q :: (rest.reduceOption.map some) := by simp [List.reduceOption]
      rw [hred, List.foldlM_cons, List.foldlM_cons]
      cases hs : stepQuote st (some q) with
      | error e => rfl
      | ok s => exact ih s

/-- C3 (amended): a missing store entry or a failed read for one
exchange (both surfacing as None from get_exchange_data) excludes only
that exchange: consolidation computes exactly what it would compute
over the remaining present quotes, and no failure escapes the function.
However, as the counterexample shows, a malformed field (null bid or
ask) inside a present quote aborts the whole consolidation for the
symbol for that cycle rather than excluding just that exchange; the
exception is still caught and never escalated. -/
theorem absent_exchange_excluded_only (sym : String) (store : List (Option ExchangeData)) :
    update_best_price sym store = update_best_price sym (store.reduceOption.map some) := by
  unfold update_best_price update_best_price_exc
  rw [foldlM_stepQuote_reduceOption]

/-- History update performed by RedisService.set_price for one symbol:
lpush prepends the new snapshot, then ltrim 0 99 keeps only the first
100 entries (newest first). -/
def set_price_history {α : Type} (h : List α) (p : α) : List α :=
  (p :: h).take 100

/-- The stored history after a sequence of set_price writes (oldest
write first in ws), starting from an empty list. -/
def run_price_history {α : Type} (ws : List α) : List α :=
  ws.foldl set_price_history []

lemma run_price_history_aux {α : Type} (ws : List α) : ∀ acc : List α, acc.length ≤ 100 →
    ((ws.foldl set_price_history acc).length = min (ws.length + acc.length) 100
     ∧ (ws = [] → (ws.foldl set_price_history acc).head? = acc.head?)
     ∧ (ws ≠ [] → (ws.foldl set_price_history acc).head? = ws.getLast?)) := by
  induction ws with
  | nil =>
    intro acc hacc
    refine ⟨?_, fun _ => rfl, fun h => absurd rfl h⟩
    simp
    omega
  | cons w ws ih =>
    intro acc hacc
    have hacc' : ((w :: acc).take 100).length ≤ 100 := by
      simp [List.length_take]
    obtain ⟨ihlen, ihnil, ihne⟩ := ih ((w :: acc).take 100) hacc'
    have hlen' : ((w :: acc).take 100).length = min (acc.length + 1) 100 := by
      simp [List.length_take]
      omega
    have hfold : (w :: ws).foldl set_price_history acc
        = ws.foldl set_price_history ((w :: acc).take 100) := rfl
    refine ⟨?_, fun h => absurd h (by simp), fun _ => ?_⟩
    · rw [hfold, ihlen, hlen']
      simp [List.length_cons]
      omega
    · rw [hfold]
      cases hws : ws with
      | nil =>
        subst hws
        have hid : ([] : List α).foldl set_price_history ((w :: acc).take 100)
            = (w :: acc).take 100 := rfl
        rw [hid]
        have h100 : (100 : ℕ) = 99 + 1 := rfl
        rw [h100, List.take_succ_cons]
        simp
      | cons b l =>
        subst hws
        rw [ihne (by simp)]
        simp [List.getLast?_cons_cons]

/-- C4: for any symbol, after the sequence ws of consolidated-price
writes through set_price (oldest first), the stored history has length
min (number of writes) 100, its entry at index 0 is the most recently
written snapshot, and the length never exceeds 100 in any reachable
state. -/
theorem price_history_bounded_newest_first {α : Type} (ws : List α) :
    (run_price_history ws).length = min ws.length 100
    ∧ (run_price_history ws).head? = ws.getLast?
    ∧ (run_price_history ws).length ≤ 100 := by
  obtain ⟨hlen, hnil, hne⟩ := run_price_history_aux ws [] (by simp)
  have hlen' : (run_price_history ws).length = min ws.length 100 := by
    simpa [run_price_history] using hlen
  refine ⟨hlen', ?_, by rw [hlen']; omega⟩
  cases hws : ws with
  | nil =>
    subst hws
    simp [run_price_history]
  | cons b l =>
    subst hws
    simpa [run_price_history] using hne (by simp)

/-- Connections are identified by a numeric id (one per WebSocket
object). -/
abbrev Conn := ℕ

/-- Dictionary lookup on an association list (Python d.get variant
returning an Option). -/
def alookup {κ α : Type} [DecidableEq κ] : List (κ × α) → κ → Option α
  | [], _ => none
  | (k, v) :: rest, key => if key = k then some v else alookup rest key

/-- Dictionary assignment d[key] = v: replaces the binding if the key
is present, appends it otherwise (Python dicts keep insertion order). -/
def aset {κ α : Type} [DecidableEq κ] : List (κ × α) → κ → α → List (κ × α)
  | [], key, v => [(key, v)]
  | (k, w) :: rest, key, v =>
    if key = k then (k, v) :: rest else (k, w) :: aset rest key v

/-- Dictionary deletion del d[key]. -/
def adel {κ α : Type} [DecidableEq κ] : List (κ × α) → κ → List (κ × α)
  | [], _ => []
  | (k, w) :: rest, key => if key = k then rest else (k, w) :: adel rest key

/-- Python set.add on a duplicate-free list: appends only if absent. -/
def setAdd {α : Type} [DecidableEq α] (l : List α) (x : α) : List α :=
  if x ∈ l then l else l ++ [x]

/-- Python set.discard on a duplicate-free list. -/
def setDiscard {α : Type} [DecidableEq α] (l : List α) (x : α) : List α :=
  l.filter fun y => decide (y ≠ x)

section AssocLemmas
variable {κ α : Type} [DecidableEq κ]

lemma alookup_aset_self (l : List (κ × α)) (k : κ) (v : α) :
    alookup (aset l k v) k = some v := by
  induction l with
  | nil => simp [aset, alookup]
  | cons p rest ih =>
    obtain ⟨k2, w⟩ := p
    by_cases h : k = k2
    · simp [aset, h, alookup]
    · simp [aset, h, alookup, ih]

lemma alookup_aset_ne (l : List (κ × α)) (k : κ) (v : α) (k2 : κ) (h : k2 ≠ k) :
    alookup (aset l k v) k2 = alookup l k2 := by
  induction l with
  | nil => simp [aset, alookup, h]
  | cons p rest ih =>
    obtain ⟨k3, w⟩ := p
    by_cases h3 : k = k3
    · subst h3
      simp [aset, alookup, h]
    · by_cases h4 : k2 = k3
      · simp [aset, h3, alookup, h4]
      · simp [aset, h3, alookup, h4, ih]

lemma alookup_adel_ne (l : List (κ × α)) (k k2 : κ) (h : k2 ≠ k) :
    alookup (adel l k) k2 = alookup l k2 := by
  induction l with
  | nil => simp [adel]
  | cons p rest ih =>
    obtain ⟨k3, w⟩ := p
    by_cases h3 : k = k3
    · subst h3
      simp [adel, alookup, h]
    · by_cases h4 : k2 = k3
      · simp [adel, h3, alookup, h4]
      · simp [adel, h3, alookup, h4, ih]

lemma alookup_none_iff (l : List (κ × α)) (k : κ) :
    alookup l k = none ↔ k ∉ l.map Prod.fst := by
  induction l with
  | nil => simp [alookup]
  | cons p rest ih =>
    obtain ⟨k3, u⟩ := p
    by_cases h3 : k = k3
    · subst h3
      simp [alookup]
    · simp [alookup, h3, ih]

lemma alookup_adel_self (l : List (κ × α)) (k : κ)
    (hnd : (l.map Prod.fst).Nodup) : alookup (adel l k) k = none := by
  induction l with
  | nil => rfl
  | cons p rest ih =>
    obtain ⟨k3, w⟩ := p
    simp only [List.map_cons, List.nodup_cons] at hnd
    by_cases h3 : k = k3
    · subst h3
      simp only [adel, if_pos rfl]
      exact (alookup_none_iff rest k).mpr hnd.1
    · simp only [adel, if_neg h3, alookup, if_neg h3]
      exact ih hnd.2

lemma adel_of_alookup_none (l : List (κ × α)) (k : κ)
    (h : alookup l k = none) : adel l k = l := by
  induction l with
  | nil => rfl
  | cons p rest ih =>
    obtain ⟨k3, w⟩ := p
    simp only [alookup] at h
    by_cases h3 : k = k3
    · simp [h3] at h
    · simp only [if_neg h3] at h
      simp [adel, h3, ih h]

lemma aset_keys_of_some (l : List (κ × α)) (k : κ) (v w : α)
    (h : alookup l k = some w) : (aset l k v).map Prod.fst = l.map Prod.fst := by
  induction l with
  | nil => simp [alookup] at h
  | cons p rest ih =>
    obtain ⟨k3, u⟩ := p
    simp only [alookup] at h
    by_cases h3 : k = k3
    · simp [aset, h3]
    · simp only [if_neg h3] at h
      simp [aset, h3, ih h]

lemma aset_of_alookup_none (l : List (κ × α)) (k : κ) (v : α)
    (h : alookup l k = none) : aset l k v = l ++ [(k, v)] := by
  induction l with
  | nil => rfl
  | cons p rest ih =>
    obtain ⟨k3, u⟩ := p
    simp only [alookup] at h
    by_cases h3 : k = k3
    · simp [h3] at h
    · simp only [if_neg h3] at h
      simp [aset, h3, ih h]

lemma adel_keys_sublist (l : List (κ × α)) (k : κ) :
    ((adel l k).map Prod.fst).Sublist (l.map Prod.fst) := by
  induction l with
  | nil => simp [adel]
  | cons p rest ih =>
    obtain ⟨k3, u⟩ := p
    by_cases h3 : k = k3
    · simp only [adel, if_pos h3, List.map_cons]
      exact List.sublist_cons_self _ _
    · simp only [adel, if_neg h3, List.map_cons]
      exact ih.cons₂ k3

lemma aset_keys_nodup (l : List (κ × α)) (k : κ) (v : α)
    (hnd : (l.map Prod.fst).Nodup) : ((aset l k v).map Prod.fst).Nodup := by
  cases h : alookup l k with
  | none =>
    rw [aset_of_alookup_none l k v h]
    simp only [List.map_append, List.map_cons, List.map_nil]
    rw [List.nodup_append]
    refine ⟨hnd, List.nodup_singleton k, ?_⟩
    intro a ha hb
    simp only [List.mem_singleton] at hb
    subst hb
    exact (alookup_none_iff l a).mp h ha
  | some w =>
    rw [aset_keys_of_some l k v w h]
    exact hnd

lemma adel_keys_nodup (l : List (κ × α)) (k : κ)
    (hnd : (l.map Prod.fst).Nodup) : ((adel l k).map Prod.fst).Nodup :=
  hnd.sublist (adel_keys_sublist l k)

lemma alookup_isSome_aset (l : List (κ × α)) (k : κ) (v : α) (k2 : κ)
    (h : (alookup l k2).isSome = true) : (alookup (aset l k v) k2).isSome = true := by
  by_cases h2 : k2 = k
  · subst h2
    rw [alookup_aset_self]
    rfl
  · rw [alookup_aset_ne l k v k2 h2]
    exact h

lemma alookup_of_mem_nodup (l : List (κ × α)) (k : κ) (v : α)
    (hnd : (l.map Prod.fst).Nodup) (hmem : (k, v) ∈ l) : alookup l k = some v := by
  induction l with
  | nil => simp at hmem
  | cons p rest ih =>
    obtain ⟨k3, u⟩ := p
    simp only [List.map_cons, List.nodup_cons] at hnd
    rcases List.mem_cons.mp hmem with hh | hh
    · rw [show k = k3 from congrArg Prod.fst hh, show v = u from congrArg Prod.snd hh]
      simp [alookup]
    · have hk3 : k ≠ k3 := by
        intro he
        subst he
        exact hnd.1 (List.mem_map_of_mem Prod.fst hh)
      simp only [alookup, if_neg hk3]
      exact ih hnd.2 hh

end AssocLemmas

/-- Per-connection metadata kept by WebSocketManager (connected_at
timestamp omitted from the model). -/
structure ConnMeta where
  subscriptions : List String
  message_count : ℕ
deriving DecidableEq

/-- The three registries of WebSocketManager: the active-connection
list, the symbol to subscriber-set dictionary, and the connection
metadata dictionary.  Python sets are modelled as duplicate-free lists
in insertion order. -/
structure WSState where
  active_connections : List Conn
  symbol_subscriptions : List (String × List Conn)
  connection_metadata : List (Conn × ConnMeta)
deriving DecidableEq

/-- The freshly constructed manager. -/
def emptyWS : WSState :=
  { active_connections := [], symbol_subscriptions := [], connection_metadata := [] }

/-- Subscriber set currently stored for a symbol (empty when the symbol
has no entry). -/
def subscribersOf (st : WSState) (sym : String) : List Conn :=
  (alookup st.symbol_subscriptions sym).getD []

/-- The symbol set recorded in a connection's metadata (empty when the
connection has no metadata entry, matching the .get default). -/
def metaSubs (st : WSState) (c : Conn) : List String :=
  match alookup st.connection_metadata c with
  | none => []
  | some m => m.subscriptions

/-- Registration part of WebSocketManager.connect: append to
active_connections and create a fresh metadata entry. -/
def register (st : WSState) (c : Conn) : WSState :=
  { active_connections := st.active_connections ++ [c],
    symbol_subscriptions := st.symbol_subscriptions,
    connection_metadata :=
      aset st.connection_metadata c { subscriptions := [], message_count := 0 } }

/-- One iteration of the symbol cleanup loop in
WebSocketManager.disconnect: discard the connection from the symbol's
subscriber set if the symbol has an entry, deleting the entry if the
set became empty. -/
def removeSubscriber (subs : List (String × List Conn)) (c : Conn) (sym : String) :
    List (String × List Conn) :=
  match alookup subs sym with
  | none => subs
  | some l =>
    let l2 := setDiscard l c
    if l2 = [] then adel subs sym else aset subs sym l2

/-- WebSocketManager.disconnect: remove the connection from the active
list (first occurrence, only if present), discard it from every symbol
set named in its own metadata (cleaning up empty sets), and delete its
metadata entry.  Its try/except never fires in this model. -/
def disconnect (st : WSState) (c : Conn) : WSState :=
  { active_connections :=
      if c ∈ st.active_connections then st.active_connections.erase c
      else st.active_connections,
    symbol_subscriptions :=
      (metaSubs st c).foldl (fun acc sym => removeSubscriber acc c sym)
        st.symbol_subscriptions,
    connection_metadata := adel st.connection_metadata c }

/-- The metadata message-count update performed after a successful
send_text: only applied when the connection still has a metadata
entry. -/
def bumpCount (st : WSState) (c : Conn) : WSState :=
  match alookup st.connection_metadata c with
  | none => st
  | some m =>
    { active_connections := st.active_connections,
      symbol_subscriptions := st.symbol_subscriptions,
      connection_metadata :=
        aset st.connection_metadata c
          { subscriptions := m.subscriptions, message_count := m.message_count + 1 } }

/-- WebSocketManager.send_personal_message: on success the message
count is bumped; a send failure is caught and triggers disconnect of
the target connection. -/
def send_personal_message (st : WSState) (c : Conn) (ok : Bool) : WSState :=
  if ok then bumpCount st c else disconnect st c

/-- WebSocketManager.connect: registration followed by the welcome
send; the Bool tells whether accepting and sending the welcome message
succeeded (a failure ends in disconnect via the except branch). -/
def connect (st : WSState) (c : Conn) (ok : Bool) : WSState :=
  if ok then bumpCount (register st c) c else disconnect (register st c) c

/-- Registry mutation of WebSocketManager.subscribe_to_symbol: create
the symbol entry if needed, add the connection to the symbol's set, and
record the symbol in the connection's metadata when the connection has
a metadata entry. -/
def addSubscription (st : WSState) (c : Conn) (sym : String) : WSState :=
  let subs0 :=
    match alookup st.symbol_subscriptions sym with
    | none => aset st.symbol_subscriptions sym []
    | some _ => st.symbol_subscriptions
  let cur := (alookup subs0 sym).getD []
  { active_connections := st.active_connections,
    symbol_subscriptions := aset subs0 sym (setAdd cur c),
    connection_metadata :=
      match alookup st.connection_metadata c with
      | none => st.connection_metadata
      | some m =>
        aset st.connection_metadata c
          { subscriptions := setAdd m.subscriptions sym,
            message_count := m.message_count } }

/-- WebSocketManager.subscribe_to_symbol including the confirmation
send (ok tells whether that send succeeded). -/
def subscribe_to_symbol (st : WSState) (c : Conn) (sym : String) (ok : Bool) : WSState :=
  send_personal_message (addSubscription st c sym) c ok

/-- Registry mutation of WebSocketManager.unsubscribe_from_symbol:
discard the connection from the symbol's set (removing an emptied
entry) and discard the symbol from the connection's metadata. -/
def removeSubscription (st : WSState) (c : Conn) (sym : String) : WSState :=
  { active_connections := st.active_connections,
    symbol_subscriptions := removeSubscriber st.symbol_subscriptions c sym,
    connection_metadata :=
      match alookup st.connection_metadata c with
      | none => st.connection_metadata
      | some m =>
        aset st.connection_metadata c
          { subscriptions := setDiscard m.subscriptions sym,
            message_count := m.message_count } }

/-- WebSocketManager.unsubscribe_from_symbol including the confirmation
send. -/
def unsubscribe_from_symbol (st : WSState) (c : Conn) (sym : String) (ok : Bool) : WSState :=
  send_personal_message (removeSubscription st c sym) c ok

/-- Body of the delivery loop of broadcast_to_symbol_subscribers: on a
successful send the connection is counted as delivered and its message
count bumped; on a failed send it is appended to the disconnected
list. -/
def broadcastStep (sendOk : Conn → Bool) (acc : List Conn × List Conn × WSState)
    (w : Conn) : List Conn × List Conn × WSState :=
  if sendOk w then (acc.1 ++ [w], acc.2.1, bumpCount acc.2.2 w)
  else (acc.1, acc.2.1 ++ [w], acc.2.2)

/-- WebSocketManager.broadcast_to_symbol_subscribers: if the symbol has
no subscriber entry nothing happens; otherwise iterate over a snapshot
of the subscriber set, then disconnect every connection whose send
failed.  Returns the list of connections that received the payload and
the final registry state. -/
def broadcast_to_symbol_subscribers (st : WSState) (sym : String)
    (sendOk : Conn → Bool) : List Conn × WSState :=
  match alookup st.symbol_subscriptions sym with
  | none => ([], st)
  | some subsSet =>
    let scan := subsSet.foldl (broadcastStep sendOk) ([], [], st)
    (scan.1, scan.2.1.foldl disconnect scan.2.2)

/-- Result of WebSocketManager.get_connection_stats. -/
structure ConnectionStats where
  total_connections : ℕ
  total_subscriptions : ℕ
  subscribed_symbols : List String
  connections_per_symbol : List (String × ℕ)
deriving DecidableEq

/-- WebSocketManager.get_connection_stats computed from current
state. -/
def get_connection_stats (st : WSState) : ConnectionStats :=
  { total_connections := st.active_connections.length,
    total_subscriptions := (st.symbol_subscriptions.map (fun p => p.2.length)).sum,
    subscribed_symbols := st.symbol_subscriptions.map Prod.fst,
    connections_per_symbol := st.symbol_subscriptions.map (fun p => (p.1, p.2.length)) }

/-- An inbound WebSocket frame as seen by handle_message after
json.loads: not parseable JSON, JSON but not an object (attribute
access then raises, landing in the generic except branch), or an object
with optional type and symbol fields. -/
inductive InboundMessage where
  | notJson : InboundMessage
  | nonDict : InboundMessage
  | dict : Option String → Option String → InboundMessage
deriving DecidableEq

/-- The payload sent back to the requesting connection by
handle_message. -/
inductive WsResponse where
  | pong : WsResponse
  | subscription_confirmed : String → WsResponse
  | unsubscription_confirmed : String → WsResponse
  | subscriptions_list : List String → WsResponse
  | error_response : String → WsResponse
deriving DecidableEq

/-- Python truthiness of message.get ("symbol"): None and the empty
string are falsy. -/
def truthyStr : Option String → Option String
  | none => none
  | some s => if s = "" then none else some s

/-- WebSocketManager.handle_message: dispatch on the type field; the ok
flag tells whether sending the response succeeded.  Returns the
response payload and the updated registry state. -/
def handle_message (st : WSState) (c : Conn) (m : InboundMessage) (ok : Bool) :
    WsResponse × WSState :=
  match m with
  | InboundMessage.notJson =>
    (WsResponse.error_response "Invalid JSON format", send_personal_message st c ok)
  | InboundMessage.nonDict =>
    (WsResponse.error_response "Internal server error", send_personal_message st c ok)
  | InboundMessage.dict mtype symbol =>
    if mtype = some "subscribe" then
      match truthyStr symbol with
      | some s => (WsResponse.subscription_confirmed s, subscribe_to_symbol st c s ok)
      | none =>
        (WsResponse.error_response "Symbol required for subscription",
         send_personal_message st c ok)
    else if mtype = some "unsubscribe" then
      match truthyStr symbol with
      | some s => (WsResponse.unsubscription_confirmed s, unsubscribe_from_symbol st c s ok)
      | none =>
        (WsResponse.error_response "Symbol required for unsubscription",
         send_personal_message st c ok)
    else if mtype = some "ping" then
      (WsResponse.pong, send_personal_message st c ok)
    else if mtype = some "get_subscriptions" then
      (WsResponse.subscriptions_list (metaSubs st c), send_personal_message st c ok)
    else
      (WsResponse.error_response "Unknown message type", send_personal_message st c ok)

section SetLemmas
variable {α : Type} [DecidableEq α]

lemma setAdd_of_mem (l : List α) (x : α) (h : x ∈ l) : setAdd l x = l := by
  simp [setAdd, h]

lemma setAdd_of_not_mem (l : List α) (x : α) (h : x ∉ l) : setAdd l x = l ++ [x] := by
  simp [setAdd, h]

lemma mem_setAdd_iff (l : List α) (x y : α) : y ∈ setAdd l x ↔ y ∈ l ∨ y = x := by
  by_cases h : x ∈ l
  · rw [setAdd_of_mem l x h]
    constructor
    · exact Or.inl
    · rintro (hy | hy)
      · exact hy
      · rw [hy]; exact h
  · rw [setAdd_of_not_mem l x h]
    simp

lemma setAdd_nodup (l : List α) (x : α) (h : l.Nodup) : (setAdd l x).Nodup := by
  by_cases hx : x ∈ l
  · rw [setAdd_of_mem l x hx]; exact h
  · rw [setAdd_of_not_mem l x hx]
    rw [List.nodup_append]
    exact ⟨h, List.nodup_singleton x, by
      intro a ha hb
      simp only [List.mem_singleton] at hb
      subst hb
      exact hx ha⟩

lemma mem_setDiscard (l : List α) (x y : α) : y ∈ setDiscard l x ↔ y ∈ l ∧ y ≠ x := by
  simp [setDiscard]

lemma setDiscard_nodup (l : List α) (x : α) (h : l.Nodup) : (setDiscard l x).Nodup :=
  h.filter _

lemma setDiscard_idem (l : List α) (x : α) :
    setDiscard (setDiscard l x) x = setDiscard l x := by
  simp [setDiscard, List.filter_filter]

lemma not_mem_setDiscard (l : List α) (x : α) : x ∉ setDiscard l x := by
  rw [mem_setDiscard]
  rintro ⟨_, h⟩
  exact h rfl

end SetLemmas

lemma removeSubscriber_keys_nodup (subs : List (String × List Conn)) (c : Conn)
    (sym : String) (hnd : (subs.map Prod.fst).Nodup) :
    ((removeSubscriber subs c sym).map Prod.fst).Nodup := by
  unfold removeSubscriber
  cases h : alookup subs sym with
  | none => exact hnd
  | some l =>
    by_cases h2 : setDiscard l c = []
    · simp only [h2, if_pos rfl]
      exact adel_keys_nodup subs sym hnd
    · simp only [if_neg h2]
      exact aset_keys_nodup subs sym _ hnd

lemma removeSubscriber_lookup (subs : List (String × List Conn)) (c : Conn)
    (sym sym2 : String) (hnd : (subs.map Prod.fst).Nodup) :
    (alookup (removeSubscriber subs c sym) sym2).getD []
      = if sym2 = sym then setDiscard ((alookup subs sym2).getD []) c
        else (alookup subs sym2).getD [] := by
  unfold removeSubscriber
  cases h : alookup subs sym with
  | none =>
    by_cases he : sym2 = sym
    · subst he
      rw [h]
      simp [setDiscard]
    · simp [he]
  | some l =>
    dsimp only
    by_cases h2 : setDiscard l c = []
    · rw [if_pos h2]
      by_cases he : sym2 = sym
      · subst he
        rw [alookup_adel_self subs sym2 hnd, h]
        simp [h2]
      · rw [alookup_adel_ne subs sym sym2 he]
        simp [he]
    · rw [if_neg h2]
      by_cases he : sym2 = sym
      · subst he
        rw [alookup_aset_self, h]
        simp
      · rw [alookup_aset_ne subs sym _ sym2 he]
        simp [he]

lemma fold_removeSubscriber (c : Conn) (csubs : List String) :
    ∀ subs : List (String × List Conn), (subs.map Prod.fst).Nodup →
      (((csubs.foldl (fun acc sym => removeSubscriber acc c sym) subs).map Prod.fst).Nodup
       ∧ ∀ sym2,
          (alookup (csubs.foldl (fun acc sym => removeSubscriber acc c sym) subs) sym2).getD []
            = if sym2 ∈ csubs then setDiscard ((alookup subs sym2).getD []) c
              else (alookup subs sym2).getD []) := by
  induction csubs with
  | nil =>
    intro subs hnd
    exact ⟨hnd, fun sym2 => by simp⟩
  | cons s rest ih =>
    intro subs hnd
    have hnd1 : ((removeSubscriber subs c s).map Prod.fst).Nodup :=
      removeSubscriber_keys_nodup subs c s hnd
    obtain ⟨ihnd, ihlook⟩ := ih (removeSubscriber subs c s) hnd1
    have hfold : (s :: rest).foldl (fun acc sym => removeSubscriber acc c sym) subs
        = rest.foldl (fun acc sym => removeSubscriber acc c sym) (removeSubscriber subs c s) := rfl
    refine ⟨by rw [hfold]; exact ihnd, ?_⟩
    intro sym2
    rw [hfold, ihlook sym2, removeSubscriber_lookup subs c s sym2 hnd]
    by_cases hs : sym2 = s
    · subst hs
      by_cases hr : sym2 ∈ rest
      · simp [hr, setDiscard_idem]
      · simp [hr]
    · by_cases hr : sym2 ∈ rest
      · simp [hr, hs]
      · simp [hr, hs, List.mem_cons]

lemma bumpCount_active (st : WSState) (c : Conn) :
    (bumpCount st c).active_connections = st.active_connections := by
  unfold bumpCount
  cases alookup st.connection_metadata c <;> rfl

lemma bumpCount_symbols (st : WSState) (c : Conn) :
    (bumpCount st c).symbol_subscriptions = st.symbol_subscriptions := by
  unfold bumpCount
  cases alookup st.connection_metadata c <;> rfl

lemma bumpCount_subscribersOf (st : WSState) (c : Conn) (sym : String) :
    subscribersOf (bumpCount st c) sym = subscribersOf st sym := by
  unfold subscribersOf
  rw [bumpCount_symbols]

lemma bumpCount_metaSubs (st : WSState) (c c2 : Conn) :
    metaSubs (bumpCount st c) c2 = metaSubs st c2 := by
  unfold bumpCount metaSubs
  cases h : alookup st.connection_metadata c with
  | none => rfl
  | some m =>
    by_cases h2 : c2 = c
    · subst h2
      rw [alookup_aset_self, h]
    · rw [alookup_aset_ne _ _ _ _ h2]

lemma bumpCount_md_isSome (st : WSState) (c c2 : Conn) :
    (alookup (bumpCount st c).connection_metadata c2).isSome
      = (alookup st.connection_metadata c2).isSome := by
  unfold bumpCount
  cases h : alookup st.connection_metadata c with
  | none => rfl
  | some m =>
    by_cases h2 : c2 = c
    · subst h2
      rw [alookup_aset_self, h]
      rfl
    · rw [alookup_aset_ne _ _ _ _ h2]

lemma disconnect_active (st : WSState) (c : Conn) :
    (disconnect st c).active_connections = st.active_connections.erase c := by
  unfold disconnect
  by_cases h : c ∈ st.active_connections
  · simp [h]
  · simp [h, List.erase_of_not_mem h]

lemma disconnect_md (st : WSState) (c : Conn) :
    (disconnect st c).connection_metadata = adel st.connection_metadata c := rfl

lemma disconnect_subscribersOf (st : WSState) (c : Conn)
    (hnd : (st.symbol_subscriptions.map Prod.fst).Nodup) (sym : String) :
    subscribersOf (disconnect st c) sym
      = if sym ∈ metaSubs st c then setDiscard (subscribersOf st sym) c
        else subscribersOf st sym :=
  (fold_removeSubscriber c (metaSubs st c) st.symbol_subscriptions hnd).2 sym

lemma disconnect_sym_keys_nodup (st : WSState) (c : Conn)
    (hnd : (st.symbol_subscriptions.map Prod.fst).Nodup) :
    (((disconnect st c).symbol_subscriptions).map Prod.fst).Nodup :=
  (fold_removeSubscriber c (metaSubs st c) st.symbol_subscriptions hnd).1

/-- The registry consistency invariant of WebSocketManager: all three
structures are duplicate-free, the active list and the metadata
dictionary register exactly the same connections, the bidirectional
subscription index is consistent, and every subscriber in a symbol set
is a registered connection. -/
structure Inv (st : WSState) : Prop where
  active_nodup : st.active_connections.Nodup
  md_keys_nodup : (st.connection_metadata.map Prod.fst).Nodup
  sym_keys_nodup : (st.symbol_subscriptions.map Prod.fst).Nodup
  sym_sets_nodup : ∀ sym l, alookup st.symbol_subscriptions sym = some l → l.Nodup
  md_subs_nodup : ∀ c m, alookup st.connection_metadata c = some m → m.subscriptions.Nodup
  active_iff_md : ∀ c, c ∈ st.active_connections
      ↔ (alookup st.connection_metadata c).isSome = true
  consistent : ∀ c m, alookup st.connection_metadata c = some m →
      ∀ sym, (sym ∈ m.subscriptions ↔ c ∈ subscribersOf st sym)
  subs_registered : ∀ sym, ∀ c2 ∈ subscribersOf st sym,
      (alookup st.connection_metadata c2).isSome = true

lemma sets_nodup_of_getD (st : WSState)
    (hset : ∀ sym l, alookup st.symbol_subscriptions sym = some l → l.Nodup)
    (sym : String) : (subscribersOf st sym).Nodup := by
  unfold subscribersOf
  cases h : alookup st.symbol_subscriptions sym with
  | none => simp
  | some l => exact hset sym l h

lemma Inv_bumpCount (st : WSState) (c : Conn) (h : Inv st) : Inv (bumpCount st c) := by
  cases hmd : alookup st.connection_metadata c with
  | none =>
    have heq : bumpCount st c = st := by unfold bumpCount; rw [hmd]
    rw [heq]
    exact h
  | some m =>
    have heq : bumpCount st c =
        { active_connections := st.active_connections,
          symbol_subscriptions := st.symbol_subscriptions,
          connection_metadata := aset st.connection_metadata c
            { subscriptions := m.subscriptions, message_count := m.message_count + 1 } } := by
      unfold bumpCount
      rw [hmd]
    rw [heq]
    refine ⟨h.active_nodup, aset_keys_nodup _ _ _ h.md_keys_nodup, h.sym_keys_nodup,
            h.sym_sets_nodup, ?_, ?_, ?_, ?_⟩
    · intro c2 m2 h2
      by_cases he : c2 = c
      · subst he
        rw [alookup_aset_self] at h2
        cases h2
        exact h.md_subs_nodup c2 m hmd
      · rw [alookup_aset_ne _ _ _ _ he] at h2
        exact h.md_subs_nodup c2 m2 h2
    · intro c2
      by_cases he : c2 = c
      · subst he
        rw [alookup_aset_self]
        exact ⟨fun _ => rfl, fun _ => (h.active_iff_md c2).mpr (by rw [hmd]; rfl)⟩
      · rw [alookup_aset_ne _ _ _ _ he]
        exact h.active_iff_md c2
    · intro c2 m2 h2 sym
      show sym ∈ m2.subscriptions ↔ c2 ∈ subscribersOf st sym
      by_cases he : c2 = c
      · subst he
        rw [alookup_aset_self] at h2
        cases h2
        exact h.consistent c2 m hmd sym
      · rw [alookup_aset_ne _ _ _ _ he] at h2
        exact h.consistent c2 m2 h2 sym
    · intro sym c2 hc2
      exact alookup_isSome_aset _ _ _ _ (h.subs_registered sym c2 hc2)

lemma Inv_register (st : WSState) (c : Conn) (h : Inv st)
    (hc : alookup st.connection_metadata c = none) : Inv (register st c) := by
  have hcact : c ∉ st.active_connections := by
    intro hmem
    have := (h.active_iff_md c).mp hmem
    rw [hc] at this
    simp at this
  refine ⟨?_, aset_keys_nodup _ _ _ h.md_keys_nodup, h.sym_keys_nodup,
          h.sym_sets_nodup, ?_, ?_, ?_, ?_⟩
  · rw [show (register st c).active_connections = st.active_connections ++ [c] from rfl,
        List.nodup_append]
    exact ⟨h.active_nodup, List.nodup_singleton c, by
      intro a ha hb
      simp only [List.mem_singleton] at hb
      subst hb
      exact hcact ha⟩
  · intro c2 m2 h2
    by_cases he : c2 = c
    · subst he
      rw [show (register st c2).connection_metadata
            = aset st.connection_metadata c2 { subscriptions := [], message_count := 0 }
          from rfl, alookup_aset_self] at h2
      cases h2
      exact List.nodup_nil
    · rw [show (register st c).connection_metadata
            = aset st.connection_metadata c { subscriptions := [], message_count := 0 }
          from rfl, alookup_aset_ne _ _ _ _ he] at h2
      exact h.md_subs_nodup c2 m2 h2
  · intro c2
    show c2 ∈ st.active_connections ++ [c]
      ↔ (alookup (aset st.connection_metadata c { subscriptions := [], message_count := 0 }) c2).isSome = true
    by_cases he : c2 = c
    · subst he
      rw [alookup_aset_self]
      simp
    · rw [alookup_aset_ne _ _ _ _ he]
      simp only [List.mem_append, List.mem_singleton, he, or_false]
      exact h.active_iff_md c2
  · intro c2 m2 h2 sym
    show sym ∈ m2.subscriptions ↔ c2 ∈ subscribersOf st sym
    by_cases he : c2 = c
    · subst he
      rw [show (register st c2).connection_metadata
            = aset st.connection_metadata c2 { subscriptions := [], message_count := 0 }
          from rfl, alookup_aset_self] at h2
      cases h2
      refine iff_of_false (by simp) ?_
      intro hmem
      have := h.subs_registered sym c2 hmem
      rw [hc] at this
      simp at this
    · rw [show (register st c).connection_metadata
            = aset st.connection_metadata c { subscriptions := [], message_count := 0 }
          from rfl, alookup_aset_ne _ _ _ _ he] at h2
      exact h.consistent c2 m2 h2 sym
  · intro sym c2 hc2
    exact alookup_isSome_aset _ _ _ _ (h.subs_registered sym c2 hc2)

lemma not_subscriber_of_not_metaSub (st : WSState) (h : Inv st) (c : Conn) (sym : String)
    (hsym : sym ∉ metaSubs st c) : c ∉ subscribersOf st sym := by
  intro hmem
  cases hmd : alookup st.connection_metadata c with
  | none =>
    have := h.subs_registered sym c hmem
    rw [hmd] at this
    simp at this
  | some m =>
    apply hsym
    unfold metaSubs
    rw [hmd]
    exact (h.consistent c m hmd sym).mpr hmem

lemma Inv_disconnect (st : WSState) (c : Conn) (h : Inv st) : Inv (disconnect st c) := by
  have hact := disconnect_active st c
  have hsubs := disconnect_subscribersOf st c h.sym_keys_nodup
  refine ⟨?_, ?_, disconnect_sym_keys_nodup st c h.sym_keys_nodup, ?_, ?_, ?_, ?_, ?_⟩
  · rw [hact]
    exact List.Nodup.sublist (List.erase_sublist _ _) h.active_nodup
  · rw [disconnect_md]
    exact adel_keys_nodup _ _ h.md_keys_nodup
  · intro sym l2 h2
    have hl2 : subscribersOf (disconnect st c) sym = l2 := by
      unfold subscribersOf
      rw [h2]
      rfl
    rw [hsubs sym] at hl2
    by_cases hs : sym ∈ metaSubs st c
    · rw [if_pos hs] at hl2
      rw [← hl2]
      exact setDiscard_nodup _ _ (sets_nodup_of_getD st h.sym_sets_nodup sym)
    · rw [if_neg hs] at hl2
      rw [← hl2]
      exact sets_nodup_of_getD st h.sym_sets_nodup sym
  · intro c2 m2 h2
    rw [disconnect_md] at h2
    by_cases he : c2 = c
    · subst he
      rw [alookup_adel_self _ _ h.md_keys_nodup] at h2
      cases h2
    · rw [alookup_adel_ne _ _ _ he] at h2
      exact h.md_subs_nodup c2 m2 h2
  · intro c2
    rw [hact, disconnect_md]
    by_cases he : c2 = c
    · subst he
      rw [alookup_adel_self _ _ h.md_keys_nodup]
      refine iff_of_false ?_ (by simp)
      intro hmem
      exact absurd rfl (h.active_nodup.mem_erase_iff.mp hmem).1
    · rw [alookup_adel_ne _ _ _ he, h.active_nodup.mem_erase_iff]
      simp only [he, ne_eq, not_false_iff, true_and]
      exact h.active_iff_md c2
  · intro c2 m2 h2 sym
    rw [disconnect_md] at h2
    by_cases he : c2 = c
    · subst he
      rw [alookup_adel_self _ _ h.md_keys_nodup] at h2
      cases h2
    · rw [alookup_adel_ne _ _ _ he] at h2
      rw [hsubs sym]
      by_cases hs : sym ∈ metaSubs st c
      · rw [if_pos hs, mem_setDiscard]
        constructor
        · intro hm
          exact ⟨(h.consistent c2 m2 h2 sym).mp hm, he⟩
        · rintro ⟨hm, _⟩
          exact (h.consistent c2 m2 h2 sym).mpr hm
      · rw [if_neg hs]
        exact h.consistent c2 m2 h2 sym
  · intro sym c2 hc2
    rw [hsubs sym] at hc2
    rw [disconnect_md]
    by_cases hs : sym ∈ metaSubs st c
    · rw [if_pos hs, mem_setDiscard] at hc2
      obtain ⟨hold, hne⟩ := hc2
      rw [alookup_adel_ne _ _ _ hne]
      exact h.subs_registered sym c2 hold
    · rw [if_neg hs] at hc2
      have hne : c2 ≠ c := by
        intro he
        subst he
        exact not_subscriber_of_not_metaSub st h c2 sym hs hc2
      rw [alookup_adel_ne _ _ _ hne]
      exact h.subs_registered sym c2 hc2

lemma addSubscription_active (st : WSState) (c : Conn) (sym : String) :
    (addSubscription st c sym).active_connections = st.active_connections := rfl

lemma addSubscription_subscribersOf (st : WSState) (c : Conn) (sym sym2 : String) :
    subscribersOf (addSubscription st c sym) sym2
      = if sym2 = sym then setAdd (subscribersOf st sym) c else subscribersOf st sym2 := by
  unfold addSubscription subscribersOf
  cases hl : alookup st.symbol_subscriptions sym with
  | none =>
    dsimp only
    by_cases he : sym2 = sym
    · subst he
      rw [alookup_aset_self, alookup_aset_self, hl]
      simp
    · rw [alookup_aset_ne _ _ _ _ he, alookup_aset_ne _ _ _ _ he]
      simp [he]
  | some l =>
    dsimp only
    by_cases he : sym2 = sym
    · subst he
      rw [alookup_aset_self, hl]
      simp
    · rw [alookup_aset_ne _ _ _ _ he]
      simp [he]

lemma addSubscription_sym_keys_nodup (st : WSState) (c : Conn) (sym : String)
    (hnd : (st.symbol_subscriptions.map Prod.fst).Nodup) :
    (((addSubscription st c sym).symbol_subscriptions).map Prod.fst).Nodup := by
  unfold addSubscription
  cases hl : alookup st.symbol_subscriptions sym with
  | none =>
    dsimp only
    exact aset_keys_nodup _ _ _ (aset_keys_nodup _ _ _ hnd)
  | some l =>
    dsimp only
    exact aset_keys_nodup _ _ _ hnd

lemma addSubscription_md_isSome (st : WSState) (c : Conn) (sym : String) (c2 : Conn) :
    (alookup (addSubscription st c sym).connection_metadata c2).isSome
      = (alookup st.connection_metadata c2).isSome := by
  unfold addSubscription
  cases hm : alookup st.connection_metadata c with
  | none => rfl
  | some m =>
    dsimp only
    by_cases he : c2 = c
    · subst he
      rw [alookup_aset_self, hm]
      rfl
    · rw [alookup_aset_ne _ _ _ _ he]

lemma addSubscription_metaSubs_ne (st : WSState) (c : Conn) (sym : String) (c2 : Conn)
    (he : c2 ≠ c) : metaSubs (addSubscription st c sym) c2 = metaSubs st c2 := by
  unfold addSubscription metaSubs
  cases hm : alookup st.connection_metadata c with
  | none => rfl
  | some m =>
    dsimp only
    rw [alookup_aset_ne _ _ _ _ he]

lemma addSubscription_metaSubs_self (st : WSState) (c : Conn) (sym : String) (m : ConnMeta)
    (hm : alookup st.connection_metadata c = some m) :
    metaSubs (addSubscription st c sym) c = setAdd m.subscriptions sym := by
  unfold addSubscription metaSubs
  rw [hm]
  dsimp only
  rw [alookup_aset_self]

lemma Inv_addSubscription (st : WSState) (c : Conn) (sym : String) (h : Inv st)
    (hreg : (alookup st.connection_metadata c).isSome = true) :
    Inv (addSubscription st c sym) := by
  obtain ⟨m, hm⟩ := Option.isSome_iff_exists.mp hreg
  have hsubs := addSubscription_subscribersOf st c sym
  have hmdeq : (addSubscription st c sym).connection_metadata
      = aset st.connection_metadata c
          { subscriptions := setAdd m.subscriptions sym, message_count := m.message_count } := by
    unfold addSubscription
    rw [hm]
  refine ⟨?_, ?_, addSubscription_sym_keys_nodup st c sym h.sym_keys_nodup, ?_, ?_, ?_, ?_, ?_⟩
  · rw [addSubscription_active]
    exact h.active_nodup
  · rw [hmdeq]
    exact aset_keys_nodup _ _ _ h.md_keys_nodup
  · intro sym2 l2 h2
    have hl2 : subscribersOf (addSubscription st c sym) sym2 = l2 := by
      unfold subscribersOf
      rw [h2]
      rfl
    rw [hsubs sym2] at hl2
    by_cases he : sym2 = sym
    · rw [if_pos he] at hl2
      rw [← hl2]
      exact setAdd_nodup _ _ (sets_nodup_of_getD st h.sym_sets_nodup sym)
    · rw [if_neg he] at hl2
      rw [← hl2]
      exact sets_nodup_of_getD st h.sym_sets_nodup sym2
  · intro c2 m2 h2
    rw [hmdeq] at h2
    by_cases he : c2 = c
    · subst he
      rw [alookup_aset_self] at h2
      cases h2
      exact setAdd_nodup _ _ (h.md_subs_nodup c2 m hm)
    · rw [alookup_aset_ne _ _ _ _ he] at h2
      exact h.md_subs_nodup c2 m2 h2
  · intro c2
    rw [addSubscription_active, addSubscription_md_isSome]
    exact h.active_iff_md c2
  · intro c2 m2 h2 sym2
    rw [hmdeq] at h2
    rw [hsubs sym2]
    by_cases he : c2 = c
    · subst he
      rw [alookup_aset_self] at h2
      cases h2
      by_cases hs : sym2 = sym
      · subst hs
        rw [if_pos rfl]
        refine iff_of_true ?_ ?_
        · exact (mem_setAdd_iff _ _ _).mpr (Or.inr rfl)
        · exact (mem_setAdd_iff _ _ _).mpr (Or.inr rfl)
      · rw [if_neg hs]
        rw [show ({ subscriptions := setAdd m.subscriptions sym,
                    message_count := m.message_count } : ConnMeta).subscriptions
              = setAdd m.subscriptions sym from rfl]
        rw [mem_setAdd_iff]
        constructor
        · rintro (hmem | hmem)
          · exact (h.consistent c2 m hm sym2).mp hmem
          · exact absurd hmem hs
        · intro hmem
          exact Or.inl ((h.consistent c2 m hm sym2).mpr hmem)
    · rw [alookup_aset_ne _ _ _ _ he] at h2
      by_cases hs : sym2 = sym
      · subst hs
        rw [if_pos rfl, mem_setAdd_iff]
        constructor
        · intro hmem
          exact Or.inl ((h.consistent c2 m2 h2 sym2).mp hmem)
        · rintro (hmem | hmem)
          · exact (h.consistent c2 m2 h2 sym2).mpr hmem
          · exact absurd hmem he
      · rw [if_neg hs]
        exact h.consistent c2 m2 h2 sym2
  · intro sym2 c2 hc2
    rw [addSubscription_md_isSome]
    rw [hsubs sym2] at hc2
    by_cases hs : sym2 = sym
    · rw [if_pos hs, mem_setAdd_iff] at hc2
      rcases hc2 with hc2 | hc2
      · exact h.subs_registered sym c2 hc2
      · subst hc2
        exact hreg
    · rw [if_neg hs] at hc2
      exact h.subs_registered sym2 c2 hc2

lemma removeSubscription_active (st : WSState) (c : Conn) (sym : String) :
    (removeSubscription st c sym).active_connections = st.active_connections := rfl

lemma removeSubscription_subscribersOf (st : WSState) (c : Conn) (sym sym2 : String)
    (hnd : (st.symbol_subscriptions.map Prod.fst).Nodup) :
    subscribersOf (removeSubscription st c sym) sym2
      = if sym2 = sym then setDiscard (subscribersOf st sym2) c else subscribersOf st sym2 := by
  unfold removeSubscription subscribersOf
  by_cases he : sym2 = sym
  · subst he
    rw [removeSubscriber_lookup _ _ _ _ hnd, if_pos rfl]
  · rw [removeSubscriber_lookup _ _ _ _ hnd, if_neg he]

lemma removeSubscription_md_isSome (st : WSState) (c : Conn) (sym : String) (c2 : Conn) :
    (alookup (removeSubscription st c sym).connection_metadata c2).isSome
      = (alookup st.connection_metadata c2).isSome := by
  unfold removeSubscription
  cases hm : alookup st.connection_metadata c with
  | none => rfl
  | some m =>
    dsimp only
    by_cases he : c2 = c
    · subst he
      rw [alookup_aset_self, hm]
      rfl
    · rw [alookup_aset_ne _ _ _ _ he]

lemma Inv_removeSubscription (st : WSState) (c : Conn) (sym : String) (h : Inv st) :
    Inv (removeSubscription st c sym) := by
  have hsubs := fun sym2 => removeSubscription_subscribersOf st c sym sym2 h.sym_keys_nodup
  refine ⟨?_, ?_, ?_, ?_, ?_, ?_, ?_, ?_⟩
  · rw [removeSubscription_active]
    exact h.active_nodup
  · show ((removeSubscription st c sym).connection_metadata.map Prod.fst).Nodup
    unfold removeSubscription
    cases hm : alookup st.connection_metadata c with
    | none => exact h.md_keys_nodup
    | some m =>
      dsimp only
      exact aset_keys_nodup _ _ _ h.md_keys_nodup
  · show (((removeSubscription st c sym).symbol_subscriptions).map Prod.fst).Nodup
    unfold removeSubscription
    exact removeSubscriber_keys_nodup _ _ _ h.sym_keys_nodup
  · intro sym2 l2 h2
    have hl2 : subscribersOf (removeSubscription st c sym) sym2 = l2 := by
      unfold subscribersOf
      rw [h2]
      rfl
    rw [hsubs sym2] at hl2
    by_cases he : sym2 = sym
    · rw [if_pos he] at hl2
      rw [← hl2]
      exact setDiscard_nodup _ _ (sets_nodup_of_getD st h.sym_sets_nodup sym2)
    · rw [if_neg he] at hl2
      rw [← hl2]
      exact sets_nodup_of_getD st h.sym_sets_nodup sym2
  · intro c2 m2 h2
    show m2.subscriptions.Nodup
    unfold removeSubscription at h2
    cases hm : alookup st.connection_metadata c with
    | none =>
      rw [hm] at h2
      exact h.md_subs_nodup c2 m2 h2
    | some m =>
      rw [hm] at h2
      dsimp only at h2
      by_cases he : c2 = c
      · subst he
        rw [alookup_aset_self] at h2
        cases h2
        exact setDiscard_nodup _ _ (h.md_subs_nodup c2 m hm)
      · rw [alookup_aset_ne _ _ _ _ he] at h2
        exact h.md_subs_nodup c2 m2 h2
  · intro c2
    rw [removeSubscription_active, removeSubscription_md_isSome]
    exact h.active_iff_md c2
  · intro c2 m2 h2 sym2
    rw [hsubs sym2]
    unfold removeSubscription at h2
    cases hm : alookup st.connection_metadata c with
    | none =>
      rw [hm] at h2
      by_cases hs : sym2 = sym
      · subst hs
        rw [if_pos rfl, mem_setDiscard]
        constructor
        · intro hmem
          refine ⟨(h.consistent c2 m2 h2 sym2).mp hmem, ?_⟩
          intro he
          subst he
          rw [hm] at h2
          cases h2
        · rintro ⟨hmem, _⟩
          exact (h.consistent c2 m2 h2 sym2).mpr hmem
      · rw [if_neg hs]
        exact h.consistent c2 m2 h2 sym2
    | some m =>
      rw [hm] at h2
      dsimp only at h2
      by_cases he : c2 = c
      · subst he
        rw [alookup_aset_self] at h2
        cases h2
        by_cases hs : sym2 = sym
        · subst hs
          rw [if_pos rfl]
          refine iff_of_false ?_ (not_mem_setDiscard _ _)
          rw [show ({ subscriptions := setDiscard m.subscriptions sym2,
                      message_count := m.message_count } : ConnMeta).subscriptions
                = setDiscard m.subscriptions sym2 from rfl]
          exact not_mem_setDiscard _ _
        · rw [if_neg hs]
          rw [show ({ subscriptions := setDiscard m.subscriptions sym,
                      message_count := m.message_count } : ConnMeta).subscriptions
                = setDiscard m.subscriptions sym from rfl]
          rw [mem_setDiscard]
          constructor
          · rintro ⟨hmem, _⟩
            exact (h.consistent c2 m hm sym2).mp hmem
          · intro hmem
            exact ⟨(h.consistent c2 m hm sym2).mpr hmem, hs⟩
      · rw [alookup_aset_ne _ _ _ _ he] at h2
        by_cases hs : sym2 = sym
        · subst hs
          rw [if_pos rfl, mem_setDiscard]
          constructor
          · intro hmem
            exact ⟨(h.consistent c2 m2 h2 sym2).mp hmem, he⟩
          · rintro ⟨hmem, _⟩
            exact (h.consistent c2 m2 h2 sym2).mpr hmem
        · rw [if_neg hs]
          exact h.consistent c2 m2 h2 sym2
  · intro sym2 c2 hc2
    rw [removeSubscription_md_isSome]
    rw [hsubs sym2] at hc2
    by_cases hs : sym2 = sym
    · rw [if_pos hs, mem_setDiscard] at hc2
      exact h.subs_registered sym2 c2 hc2.1
    · rw [if_neg hs] at hc2
      exact h.subs_registered sym2 c2 hc2

lemma Inv_send_personal (st : WSState) (c : Conn) (ok : Bool) (h : Inv st) :
    Inv (send_personal_message st c ok) := by
  unfold send_personal_message
  cases ok with
  | true => exact Inv_bumpCount st c h
  | false => exact Inv_disconnect st c h

lemma Inv_connect (st : WSState) (c : Conn) (ok : Bool) (h : Inv st)
    (hc : alookup st.connection_metadata c = none) : Inv (connect st c ok) := by
  unfold connect
  cases ok with
  | true => exact Inv_bumpCount _ c (Inv_register st c h hc)
  | false => exact Inv_disconnect _ c (Inv_register st c h hc)

lemma Inv_subscribe (st : WSState) (c : Conn) (sym : String) (ok : Bool) (h : Inv st)
    (hreg : (alookup st.connection_metadata c).isSome = true) :
    Inv (subscribe_to_symbol st c sym ok) :=
  Inv_send_personal _ c ok (Inv_addSubscription st c sym h hreg)

lemma Inv_unsubscribe (st : WSState) (c : Conn) (sym : String) (ok : Bool) (h : Inv st) :
    Inv (unsubscribe_from_symbol st c sym ok) :=
  Inv_send_personal _ c ok (Inv_removeSubscription st c sym h)

lemma Inv_empty : Inv emptyWS := by
  refine ⟨List.nodup_nil, List.nodup_nil, List.nodup_nil, ?_, ?_, ?_, ?_, ?_⟩
  · intro sym l h
    cases h
  · intro c m h
    cases h
  · intro c
    simp [emptyWS, alookup]
  · intro c m h
    cases h
  · intro sym c2 h
    simp [emptyWS, subscribersOf, alookup] at h

/-- Registry states reachable from a fresh manager by the four lifecycle
operations, under the discipline the endpoints follow before any
failure: connect only for a connection not currently registered, and
subscribe only for a currently registered connection (disconnect and
unsubscribe are unrestricted; every send outcome is allowed). -/
inductive Reachable : WSState → Prop where
  | init : Reachable emptyWS
  | conn (st : WSState) (c : Conn) (ok : Bool) : Reachable st →
      alookup st.connection_metadata c = none → Reachable (connect st c ok)
  | disc (st : WSState) (c : Conn) : Reachable st → Reachable (disconnect st c)
  | sub (st : WSState) (c : Conn) (sym : String) (ok : Bool) : Reachable st →
      (alookup st.connection_metadata c).isSome = true →
      Reachable (subscribe_to_symbol st c sym ok)
  | unsub (st : WSState) (c : Conn) (sym : String) (ok : Bool) : Reachable st →
      Reachable (unsubscribe_from_symbol st c sym ok)

lemma Inv_of_Reachable (st : WSState) (h : Reachable st) : Inv st := by
  induction h with
  | init => exact Inv_empty
  | conn st c ok _ hnone ih => exact Inv_connect st c ok ih hnone
  | disc st c _ ih => exact Inv_disconnect st c ih
  | sub st c sym ok _ hreg ih => exact Inv_subscribe st c sym ok ih hreg
  | unsub st c sym ok _ ih => exact Inv_unsubscribe st c sym ok ih

/-- C8 counterexample: the claim quantifies over arbitrary sequences of
the four operations, and subscribe does not check registration: a
single subscribe on a fresh manager (as happens in the real service
when a broadcast failure disconnects a connection whose socket loop
then delivers another subscribe frame) yields a subscription entry for
a connection that is not registered. -/
theorem unregistered_subscribe_breaks_invariant :
    0 ∈ subscribersOf (subscribe_to_symbol emptyWS 0 "BTC/USDT" true) "BTC/USDT"
    ∧ 0 ∉ (subscribe_to_symbol emptyWS 0 "BTC/USDT" true).active_connections := by
  decide

/-- C8 (amended): in every state reachable by sequences in which
connect is applied only to unregistered connections and subscribe only
to registered ones (disconnect and unsubscribe unrestricted), every
subscription entry references a connection in the active list, and a
connection absent from the active list has no subscription in any
symbol set. -/
theorem subscription_entries_reference_registered (st : WSState) (h : Reachable st) :
    (∀ p ∈ st.symbol_subscriptions, ∀ c ∈ p.2, c ∈ st.active_connections)
    ∧ (∀ c, c ∉ st.active_connections → ∀ sym, c ∉ subscribersOf st sym) := by
  have hInv : Inv st := Inv_of_Reachable st h
  constructor
  · rintro ⟨sym, l⟩ hp c hc
    have hl : alookup st.symbol_subscriptions sym = some l :=
      alookup_of_mem_nodup _ _ _ hInv.sym_keys_nodup hp
    have hmem : c ∈ subscribersOf st sym := by
      unfold subscribersOf
      rw [hl]
      exact hc
    exact (hInv.active_iff_md c).mpr (hInv.subs_registered sym c hmem)
  · intro c hc sym hmem
    exact hc ((hInv.active_iff_md c).mpr (hInv.subs_registered sym c hmem))

/-- C8 witness: the invariant instantiated at the concrete state built
by one connect followed by one subscribe. -/
theorem subscription_entries_reference_registered_witness :
    (∀ p ∈ (subscribe_to_symbol (connect emptyWS 0 true) 0 "BTC/USDT" true).symbol_subscriptions,
        ∀ c ∈ p.2,
        c ∈ (subscribe_to_symbol (connect emptyWS 0 true) 0 "BTC/USDT" true).active_connections)
    ∧ (∀ c, c ∉ (subscribe_to_symbol (connect emptyWS 0 true) 0 "BTC/USDT" true).active_connections →
        ∀ sym, c ∉ subscribersOf (subscribe_to_symbol (connect emptyWS 0 true) 0 "BTC/USDT" true) sym) :=
  subscription_entries_reference_registered _
    (Reachable.sub _ 0 "BTC/USDT" true
      (Reachable.conn _ 0 true Reachable.init rfl) (by decide))

/-- Everything disconnect is supposed to clear for its own connection:
the active-list entry, the membership in every symbol set, and the
metadata entry. -/
lemma disconnect_clears (st : WSState) (c : Conn) (h : Inv st) :
    c ∉ (disconnect st c).active_connections
    ∧ (∀ sym, c ∉ subscribersOf (disconnect st c) sym)
    ∧ alookup (disconnect st c).connection_metadata c = none := by
  refine ⟨?_, ?_, ?_⟩
  · rw [disconnect_active]
    intro hmem
    exact absurd rfl (h.active_nodup.mem_erase_iff.mp hmem).1
  · intro sym
    rw [disconnect_subscribersOf st c h.sym_keys_nodup sym]
    by_cases hs : sym ∈ metaSubs st c
    · rw [if_pos hs]
      exact not_mem_setDiscard _ _
    · rw [if_neg hs]
      exact not_subscriber_of_not_metaSub st h c sym hs
  · rw [disconnect_md]
    exact alookup_adel_self _ _ h.md_keys_nodup

/-- Disconnecting a connection that is neither in the active list nor
in the metadata dictionary changes nothing (the cleanup loop has no
symbols to visit). -/
lemma disconnect_of_unregistered (st : WSState) (c : Conn)
    (ha : c ∉ st.active_connections) (hm : alookup st.connection_metadata c = none) :
    disconnect st c = st := by
  have hms : metaSubs st c = [] := by
    unfold metaSubs
    rw [hm]
  unfold disconnect
  rw [if_neg ha, hms, adel_of_alookup_none _ _ hm]
  rfl

/-- Number of symbol entries whose stored subscriber set contains the
connection, i.e. the subscription count for this connection visible in
the data get_connection_stats reads. -/
def conn_subscription_count (st : WSState) (c : Conn) : ℕ :=
  (st.symbol_subscriptions.filter (fun p => decide (c ∈ p.2))).length

/-- C6: disconnect removes the connection from the active list, from
every symbol subscriber set (in particular every stored entry), and
from the metadata dictionary, so the state read by
get_connection_stats attributes zero subscriptions to it; and a second
disconnect of the same connection leaves the state unchanged. -/
theorem disconnect_cleans_and_idempotent (st : WSState) (c : Conn) (h : Inv st) :
    c ∉ (disconnect st c).active_connections
    ∧ (∀ sym, c ∉ subscribersOf (disconnect st c) sym)
    ∧ (∀ p ∈ (disconnect st c).symbol_subscriptions, c ∉ p.2)
    ∧ alookup (disconnect st c).connection_metadata c = none
    ∧ conn_subscription_count (disconnect st c) c = 0
    ∧ disconnect (disconnect st c) c = disconnect st c := by
  obtain ⟨h1, h2, h3⟩ := disconnect_clears st c h
  have hentries : ∀ p ∈ (disconnect st c).symbol_subscriptions, c ∉ p.2 := by
    rintro ⟨sym, l⟩ hp hc
    have hl : alookup (disconnect st c).symbol_subscriptions sym = some l :=
      alookup_of_mem_nodup _ _ _ (disconnect_sym_keys_nodup st c h.sym_keys_nodup) hp
    apply h2 sym
    unfold subscribersOf
    rw [hl]
    exact hc
  refine ⟨h1, h2, hentries, h3, ?_, ?_⟩
  · unfold conn_subscription_count
    rw [List.length_eq_zero, List.filter_eq_nil_iff]
    intro p hp
    simp only [decide_eq_true_eq]
    exact hentries p hp
  · exact disconnect_of_unregistered _ c h1 h3

/-- C6 witness: disconnect applied in a concrete reachable state with
one registered, subscribed connection. -/
theorem disconnect_cleans_and_idempotent_witness :
    0 ∉ (disconnect (subscribe_to_symbol (connect emptyWS 0 true) 0 "BTC/USDT" true) 0).active_connections
    ∧ (∀ sym, 0 ∉ subscribersOf
        (disconnect (subscribe_to_symbol (connect emptyWS 0 true) 0 "BTC/USDT" true) 0) sym)
    ∧ (∀ p ∈ (disconnect (subscribe_to_symbol (connect emptyWS 0 true) 0 "BTC/USDT" true) 0).symbol_subscriptions,
        0 ∉ p.2)
    ∧ alookup (disconnect (subscribe_to_symbol (connect emptyWS 0 true) 0 "BTC/USDT" true) 0).connection_metadata 0 = none
    ∧ conn_subscription_count (disconnect (subscribe_to_symbol (connect emptyWS 0 true) 0 "BTC/USDT" true) 0) 0 = 0
    ∧ disconnect (disconnect (subscribe_to_symbol (connect emptyWS 0 true) 0 "BTC/USDT" true) 0) 0
        = disconnect (subscribe_to_symbol (connect emptyWS 0 true) 0 "BTC/USDT" true) 0 :=
  disconnect_cleans_and_idempotent _ 0
    (Inv_of_Reachable _ (Reachable.sub _ 0 "BTC/USDT" true
      (Reachable.conn _ 0 true Reachable.init rfl) (by decide)))

lemma subscribe_ok_eq (st : WSState) (c : Conn) (sym : String) :
    subscribe_to_symbol st c sym true = bumpCount (addSubscription st c sym) c := rfl

lemma subscribe_ok_subscribersOf (st : WSState) (c : Conn) (sym sym2 : String) :
    subscribersOf (subscribe_to_symbol st c sym true) sym2
      = if sym2 = sym then setAdd (subscribersOf st sym) c else subscribersOf st sym2 := by
  rw [subscribe_ok_eq, bumpCount_subscribersOf, addSubscription_subscribersOf]

lemma subscribe_ok_md_isSome (st : WSState) (c : Conn) (sym : String) (c2 : Conn) :
    (alookup (subscribe_to_symbol st c sym true).connection_metadata c2).isSome
      = (alookup st.connection_metadata c2).isSome := by
  rw [subscribe_ok_eq, bumpCount_md_isSome, addSubscription_md_isSome]

lemma addSubscription_metaSubs_reg (st : WSState) (c : Conn) (sym : String)
    (hreg : (alookup st.connection_metadata c).isSome = true) :
    metaSubs (addSubscription st c sym) c = setAdd (metaSubs st c) sym := by
  obtain ⟨m, hm⟩ := Option.isSome_iff_exists.mp hreg
  rw [addSubscription_metaSubs_self st c sym m hm]
  unfold metaSubs
  rw [hm]

lemma subscribe_ok_metaSubs (st : WSState) (c : Conn) (sym : String)
    (hreg : (alookup st.connection_metadata c).isSome = true) :
    metaSubs (subscribe_to_symbol st c sym true) c = setAdd (metaSubs st c) sym := by
  rw [subscribe_ok_eq, bumpCount_metaSubs, addSubscription_metaSubs_reg st c sym hreg]

/-- C7: subscribing the same registered, not-yet-subscribed connection
to the same symbol twice is idempotent: the first subscribe grows the
symbol's subscriber count by exactly one, the second leaves it
unchanged, and afterwards the connection's own subscription set holds
the symbol exactly once. -/
theorem subscribe_twice_idempotent (st : WSState) (c : Conn) (sym : String)
    (h : Inv st) (hreg : (alookup st.connection_metadata c).isSome = true)
    (hnew : c ∉ subscribersOf st sym) :
    (subscribersOf (subscribe_to_symbol st c sym true) sym).length
        = (subscribersOf st sym).length + 1
    ∧ (subscribersOf (subscribe_to_symbol (subscribe_to_symbol st c sym true) c sym true) sym).length
        = (subscribersOf (subscribe_to_symbol st c sym true) sym).length
    ∧ (metaSubs (subscribe_to_symbol (subscribe_to_symbol st c sym true) c sym true) c).count sym = 1 := by
  have hs1 : subscribersOf (subscribe_to_symbol st c sym true) sym
      = subscribersOf st sym ++ [c] := by
    rw [subscribe_ok_subscribersOf, if_pos rfl, setAdd_of_not_mem _ _ hnew]
  have hs2 : subscribersOf (subscribe_to_symbol (subscribe_to_symbol st c sym true) c sym true) sym
      = subscribersOf (subscribe_to_symbol st c sym true) sym := by
    rw [subscribe_ok_subscribersOf, if_pos rfl, setAdd_of_mem]
    rw [hs1]
    simp
  have hnotsym : sym ∉ metaSubs st c := by
    obtain ⟨m, hm⟩ := Option.isSome_iff_exists.mp hreg
    unfold metaSubs
    rw [hm]
    intro hmem
    exact hnew ((h.consistent c m hm sym).mp hmem)
  have hreg1 : (alookup (subscribe_to_symbol st c sym true).connection_metadata c).isSome = true := by
    rw [subscribe_ok_md_isSome]
    exact hreg
  have hm1 : metaSubs (subscribe_to_symbol st c sym true) c = metaSubs st c ++ [sym] := by
    rw [subscribe_ok_metaSubs st c sym hreg, setAdd_of_not_mem _ _ hnotsym]
  have hm2 : metaSubs (subscribe_to_symbol (subscribe_to_symbol st c sym true) c sym true) c
      = metaSubs st c ++ [sym] := by
    rw [subscribe_ok_metaSubs _ c sym hreg1, hm1, setAdd_of_mem]
    simp
  refine ⟨?_, ?_, ?_⟩
  · rw [hs1]
    simp
  · rw [hs2]
  · rw [hm2, List.count_append]
    have hz : (metaSubs st c).count sym = 0 := List.count_eq_zero.mpr hnotsym
    rw [hz]
    simp

/-- C7 witness: the double subscribe on a freshly connected
connection. -/
theorem subscribe_twice_idempotent_witness :
    (subscribersOf (subscribe_to_symbol (connect emptyWS 0 true) 0 "ETH/USDT" true) "ETH/USDT").length
        = (subscribersOf (connect emptyWS 0 true) "ETH/USDT").length + 1
    ∧ (subscribersOf (subscribe_to_symbol (subscribe_to_symbol (connect emptyWS 0 true) 0 "ETH/USDT" true) 0 "ETH/USDT" true) "ETH/USDT").length
        = (subscribersOf (subscribe_to_symbol (connect emptyWS 0 true) 0 "ETH/USDT" true) "ETH/USDT").length
    ∧ (metaSubs (subscribe_to_symbol (subscribe_to_symbol (connect emptyWS 0 true) 0 "ETH/USDT" true) 0 "ETH/USDT" true) 0).count "ETH/USDT" = 1 :=
  subscribe_twice_idempotent _ 0 "ETH/USDT"
    (Inv_of_Reachable _ (Reachable.conn _ 0 true Reachable.init rfl))
    (by decide) (by decide)

lemma broadcastStep_scan (sendOk : Conn → Bool) (subs : List Conn) :
    ∀ (d0 f0 : List Conn) (s0 : WSState),
      (subs.foldl (broadcastStep sendOk) (d0, f0, s0)).1 = d0 ++ subs.filter sendOk
      ∧ (subs.foldl (broadcastStep sendOk) (d0, f0, s0)).2.1
          = f0 ++ subs.filter (fun w => !(sendOk w))
      ∧ (subs.foldl (broadcastStep sendOk) (d0, f0, s0)).2.2.active_connections
          = s0.active_connections
      ∧ (subs.foldl (broadcastStep sendOk) (d0, f0, s0)).2.2.symbol_subscriptions
          = s0.symbol_subscriptions
      ∧ (Inv s0 → Inv (subs.foldl (broadcastStep sendOk) (d0, f0, s0)).2.2) := by
  induction subs with
  | nil =>
    intro d0 f0 s0
    exact ⟨by simp, by simp, rfl, rfl, fun h => h⟩
  | cons w rest ih =>
    intro d0 f0 s0
    cases hw : sendOk w with
    | true =>
      have hstep : broadcastStep sendOk (d0, f0, s0) w = (d0 ++ [w], f0, bumpCount s0 w) := by
        simp [broadcastStep, hw]
      rw [List.foldl_cons, hstep]
      obtain ⟨i1, i2, i3, i4, i5⟩ := ih (d0 ++ [w]) f0 (bumpCount s0 w)
      refine ⟨?_, ?_, ?_, ?_, ?_⟩
      · rw [i1, List.filter_cons_of_pos (by rw [hw])]
        simp
      · rw [i2, List.filter_cons_of_neg (by simp [hw])]
      · rw [i3, bumpCount_active]
      · rw [i4, bumpCount_symbols]
      · intro h
        exact i5 (Inv_bumpCount s0 w h)
    | false =>
      have hstep : broadcastStep sendOk (d0, f0, s0) w = (d0, f0 ++ [w], s0) := by
        simp [broadcastStep, hw]
      rw [List.foldl_cons, hstep]
      obtain ⟨i1, i2, i3, i4, i5⟩ := ih d0 (f0 ++ [w]) s0
      refine ⟨?_, ?_, i3, i4, i5⟩
      · rw [i1, List.filter_cons_of_neg (by simp [hw])]
      · rw [i2, List.filter_cons_of_pos (by simp [hw])]
        simp

lemma disconnect_no_new_active (s : WSState) (y c : Conn)
    (h : c ∉ s.active_connections) : c ∉ (disconnect s y).active_connections := by
  rw [disconnect_active]
  intro hmem
  exact h (List.mem_of_mem_erase hmem)

lemma disconnect_no_new_sub (s : WSState) (y c : Conn) (sym : String) (hInv : Inv s)
    (h : c ∉ subscribersOf s sym) : c ∉ subscribersOf (disconnect s y) sym := by
  rw [disconnect_subscribersOf s y hInv.sym_keys_nodup sym]
  by_cases hs : sym ∈ metaSubs s y
  · rw [if_pos hs]
    intro hmem
    exact h ((mem_setDiscard _ _ _).mp hmem).1
  · rw [if_neg hs]
    exact h

lemma foldl_disconnect_facts (l : List Conn) : ∀ s : WSState, Inv s →
    Inv (l.foldl disconnect s)
    ∧ (∀ c, c ∉ s.active_connections → c ∉ (l.foldl disconnect s).active_connections)
    ∧ (∀ c sym, c ∉ subscribersOf s sym → c ∉ subscribersOf (l.foldl disconnect s) sym)
    ∧ (∀ c ∈ l, c ∉ (l.foldl disconnect s).active_connections
        ∧ ∀ sym, c ∉ subscribersOf (l.foldl disconnect s) sym) := by
  induction l with
  | nil =>
    intro s h
    exact ⟨h, fun c hc => hc, fun c sym hc => hc, fun c hc => absurd hc (by simp)⟩
  | cons y rest ih =>
    intro s h
    have hInv1 : Inv (disconnect s y) := Inv_disconnect s y h
    obtain ⟨j1, j2, j3, j4⟩ := ih (disconnect s y) hInv1
    have hfold : (y :: rest).foldl disconnect s = rest.foldl disconnect (disconnect s y) := rfl
    rw [hfold]
    obtain ⟨k1, k2, k3⟩ := disconnect_clears s y h
    refine ⟨j1, ?_, ?_, ?_⟩
    · intro c hc
      exact j2 c (disconnect_no_new_active s y c hc)
    · intro c sym hc
      exact j3 c sym (disconnect_no_new_sub s y c sym h hc)
    · intro c hc
      rcases List.mem_cons.mp hc with hc | hc
      · subst hc
        exact ⟨j2 c k1, fun sym => j3 c sym (k2 sym)⟩
      · exact j4 c hc

/-- C5: broadcast to a symbol iterates over the snapshot of the
subscriber set taken when the broadcast starts: exactly the snapshot
members whose send succeeds receive the payload, in set order,
regardless of failures elsewhere; and every snapshot member whose send
fails is disconnected afterwards — gone from the active list and from
every symbol's subscriber set. -/
theorem broadcast_snapshot_and_failure_isolation (st : WSState) (sym : String)
    (sendOk : Conn → Bool) (h : Inv st) :
    (broadcast_to_symbol_subscribers st sym sendOk).1 = (subscribersOf st sym).filter sendOk
    ∧ ∀ c ∈ subscribersOf st sym, sendOk c = false →
        c ∉ (broadcast_to_symbol_subscribers st sym sendOk).2.active_connections
        ∧ ∀ sym2, c ∉ subscribersOf (broadcast_to_symbol_subscribers st sym sendOk).2 sym2 := by
  unfold broadcast_to_symbol_subscribers
  cases hl : alookup st.symbol_subscriptions sym with
  | none =>
    have hempty : subscribersOf st sym = [] := by
      unfold subscribersOf
      rw [hl]
      rfl
    rw [hempty]
    exact ⟨by simp, fun c hc => absurd hc (by simp)⟩
  | some subsSet =>
    have hsubs : subscribersOf st sym = subsSet := by
      unfold subscribersOf
      rw [hl]
      rfl
    dsimp only
    obtain ⟨s1, s2, s3, s4, s5⟩ := broadcastStep_scan sendOk subsSet [] [] st
    obtain ⟨f1, f2, f3, f4⟩ :=
      foldl_disconnect_facts (subsSet.foldl (broadcastStep sendOk) ([], [], st)).2.1
        (subsSet.foldl (broadcastStep sendOk) ([], [], st)).2.2 (s5 h)
    constructor
    · rw [s1, hsubs]
      simp
    · intro c hc hfail
      rw [hsubs] at hc
      have hcf : c ∈ (subsSet.foldl (broadcastStep sendOk) ([], [], st)).2.1 := by
        rw [s2]
        simp only [List.nil_append, List.mem_filter]
        exact ⟨hc, by rw [hfail]; rfl⟩
      exact f4 c hcf

/-- C5 witness: a subscribed connection whose send fails is removed by
the broadcast. -/
theorem broadcast_snapshot_and_failure_isolation_witness :
    (broadcast_to_symbol_subscribers
        (subscribe_to_symbol (connect emptyWS 0 true) 0 "BTC/USDT" true) "BTC/USDT"
        (fun _ => false)).1
      = (subscribersOf (subscribe_to_symbol (connect emptyWS 0 true) 0 "BTC/USDT" true) "BTC/USDT").filter
          (fun _ => false)
    ∧ 0 ∈ subscribersOf (subscribe_to_symbol (connect emptyWS 0 true) 0 "BTC/USDT" true) "BTC/USDT"
    ∧ 0 ∉ (broadcast_to_symbol_subscribers
        (subscribe_to_symbol (connect emptyWS 0 true) 0 "BTC/USDT" true) "BTC/USDT"
        (fun _ => false)).2.active_connections
    ∧ ∀ sym2, 0 ∉ subscribersOf
        (broadcast_to_symbol_subscribers
          (subscribe_to_symbol (connect emptyWS 0 true) 0 "BTC/USDT" true) "BTC/USDT"
          (fun _ => false)).2 sym2 := by
  have hInv : Inv (subscribe_to_symbol (connect emptyWS 0 true) 0 "BTC/USDT" true) :=
    Inv_of_Reachable _ (Reachable.sub _ 0 "BTC/USDT" true
      (Reachable.conn _ 0 true Reachable.init rfl) (by decide))
  have hspec := broadcast_snapshot_and_failure_isolation
    (subscribe_to_symbol (connect emptyWS 0 true) 0 "BTC/USDT" true) "BTC/USDT"
    (fun _ => false) hInv
  have hmem : 0 ∈ subscribersOf (subscribe_to_symbol (connect emptyWS 0 true) 0 "BTC/USDT" true) "BTC/USDT" := by
    decide
  obtain ⟨hres, hcl⟩ := hspec
  obtain ⟨hact, hsub⟩ := hcl 0 hmem rfl
  exact ⟨hres, hmem, hact, hsub⟩

lemma send_ok_eq (st : WSState) (c : Conn) :
    send_personal_message st c true = bumpCount st c := rfl

lemma unsubscribe_ok_eq (st : WSState) (c : Conn) (sym : String) :
    unsubscribe_from_symbol st c sym true = bumpCount (removeSubscription st c sym) c := rfl

lemma subscribe_ok_active (st : WSState) (c : Conn) (sym : String) :
    (subscribe_to_symbol st c sym true).active_connections = st.active_connections := by
  rw [subscribe_ok_eq, bumpCount_active, addSubscription_active]

lemma unsubscribe_ok_active (st : WSState) (c : Conn) (sym : String) :
    (unsubscribe_from_symbol st c sym true).active_connections = st.active_connections := by
  rw [unsubscribe_ok_eq, bumpCount_active, removeSubscription_active]

/-- C9: handle_message answers ping with pong; a subscribe or
unsubscribe without a (truthy) symbol field yields an error response
and leaves the subscription registry unchanged; an unrecognized type
yields an error response; a payload that is not JSON, or not a JSON
object, yields an error response instead of terminating the
connection; and no inbound frame (with its response delivered) ever
changes the active-connection list, so the connection stays
registered. -/
theorem handle_message_protocol (st : WSState) (c : Conn) :
    ((handle_message st c (InboundMessage.dict (some "ping") none) true).1 = WsResponse.pong)
    ∧ (∀ s, truthyStr s = none →
        (∃ e, (handle_message st c (InboundMessage.dict (some "subscribe") s) true).1
            = WsResponse.error_response e)
        ∧ (handle_message st c (InboundMessage.dict (some "subscribe") s) true).2.symbol_subscriptions
            = st.symbol_subscriptions
        ∧ ∀ c2, metaSubs (handle_message st c (InboundMessage.dict (some "subscribe") s) true).2 c2
            = metaSubs st c2)
    ∧ (∀ s, truthyStr s = none →
        (∃ e, (handle_message st c (InboundMessage.dict (some "unsubscribe") s) true).1
            = WsResponse.error_response e)
        ∧ (handle_message st c (InboundMessage.dict (some "unsubscribe") s) true).2.symbol_subscriptions
            = st.symbol_subscriptions
        ∧ ∀ c2, metaSubs (handle_message st c (InboundMessage.dict (some "unsubscribe") s) true).2 c2
            = metaSubs st c2)
    ∧ (∀ t s, t ≠ some "subscribe" → t ≠ some "unsubscribe" → t ≠ some "ping" →
        t ≠ some "get_subscriptions" →
        ∃ e, (handle_message st c (InboundMessage.dict t s) true).1 = WsResponse.error_response e)
    ∧ (∃ e, (handle_message st c InboundMessage.notJson true).1 = WsResponse.error_response e)
    ∧ (∃ e, (handle_message st c InboundMessage.nonDict true).1 = WsResponse.error_response e)
    ∧ (∀ m, (handle_message st c m true).2.active_connections = st.active_connections) := by
  refine ⟨rfl, ?_, ?_, ?_, ⟨_, rfl⟩, ⟨_, rfl⟩, ?_⟩
  · intro s hs
    have heq : handle_message st c (InboundMessage.dict (some "subscribe") s) true
        = (WsResponse.error_response "Symbol required for subscription",
           send_personal_message st c true) := by
      simp [handle_message, hs]
    rw [heq, send_ok_eq]
    exact ⟨⟨_, rfl⟩, bumpCount_symbols st c, fun c2 => bumpCount_metaSubs st c c2⟩
  · intro s hs
    have heq : handle_message st c (InboundMessage.dict (some "unsubscribe") s) true
        = (WsResponse.error_response "Symbol required for unsubscription",
           send_personal_message st c true) := by
      simp [handle_message, hs]
    rw [heq, send_ok_eq]
    exact ⟨⟨_, rfl⟩, bumpCount_symbols st c, fun c2 => bumpCount_metaSubs st c c2⟩
  · intro t s h1 h2 h3 h4
    have heq : handle_message st c (InboundMessage.dict t s) true
        = (WsResponse.error_response "Unknown message type",
           send_personal_message st c true) := by
      simp [handle_message, h1, h2, h3, h4]
    rw [heq]
    exact ⟨_, rfl⟩
  · intro m
    cases m with
    | notJson =>
      rw [show (handle_message st c InboundMessage.notJson true).2
            = bumpCount st c from rfl, bumpCount_active]
    | nonDict =>
      rw [show (handle_message st c InboundMessage.nonDict true).2
            = bumpCount st c from rfl, bumpCount_active]
    | dict t s =>
      by_cases h1 : t = some "subscribe"
      · cases hts : truthyStr s with
        | some s2 =>
          have heq : (handle_message st c (InboundMessage.dict t s) true).2
              = subscribe_to_symbol st c s2 true := by
            simp [handle_message, h1, hts]
          rw [heq, subscribe_ok_active]
        | none =>
          have heq : (handle_message st c (InboundMessage.dict t s) true).2
              = send_personal_message st c true := by
            simp [handle_message, h1, hts]
          rw [heq, send_ok_eq, bumpCount_active]
      · by_cases h2 : t = some "unsubscribe"
        · cases hts : truthyStr s with
          | some s2 =>
            have heq : (handle_message st c (InboundMessage.dict t s) true).2
                = unsubscribe_from_symbol st c s2 true := by
              simp [handle_message, h1, h2, hts]
            rw [heq, unsubscribe_ok_active]
          | none =>
            have heq : (handle_message st c (InboundMessage.dict t s) true).2
                = send_personal_message st c true := by
              simp [handle_message, h1, h2, hts]
            rw [heq, send_ok_eq, bumpCount_active]
        · by_cases h3 : t = some "ping"
          · have heq : (handle_message st c (InboundMessage.dict t s) true).2
                = send_personal_message st c true := by
              simp [handle_message, h1, h2, h3]
            rw [heq, send_ok_eq, bumpCount_active]
          · by_cases h4 : t = some "get_subscriptions"
            · have heq : (handle_message st c (InboundMessage.dict t s) true).2
                  = send_personal_message st c true := by
                simp [handle_message, h1, h2, h3, h4]
              rw [heq, send_ok_eq, bumpCount_active]
            · have heq : (handle_message st c (InboundMessage.dict t s) true).2
                  = send_personal_message st c true := by
                simp [handle_message, h1, h2, h3, h4]
              rw [heq, send_ok_eq, bumpCount_active]

/-- C9 witness: the protocol properties instantiated on a concrete
registered connection with concrete malformed frames. -/
theorem handle_message_protocol_witness :
    ((handle_message (connect emptyWS 0 true) 0 (InboundMessage.dict (some "ping") none) true).1
        = WsResponse.pong)
    ∧ (∃ e, (handle_message (connect emptyWS 0 true) 0
        (InboundMessage.dict (some "subscribe") none) true).1 = WsResponse.error_response e)
    ∧ (handle_message (connect emptyWS 0 true) 0
        (InboundMessage.dict (some "subscribe") (some "")) true).2.symbol_subscriptions
        = (connect emptyWS 0 true).symbol_subscriptions
    ∧ (∃ e, (handle_message (connect emptyWS 0 true) 0
        (InboundMessage.dict (some "bogus") (some "X")) true).1 = WsResponse.error_response e)
    ∧ (∃ e, (handle_message (connect emptyWS 0 true) 0 InboundMessage.notJson true).1
        = WsResponse.error_response e)
    ∧ (handle_message (connect emptyWS 0 true) 0 InboundMessage.nonDict true).2.active_connections
        = (connect emptyWS 0 true).active_connections := by
  obtain ⟨w1, w2, _, w4, w5, _, w7⟩ := handle_message_protocol (connect emptyWS 0 true) 0
  exact ⟨w1, (w2 none rfl).1, (w2 (some "") rfl).2.1,
         w4 (some "bogus") (some "X") (by decide) (by decide) (by decide) (by decide),
         w5, w7 InboundMessage.nonDict⟩

/-- Body of RedisService.get_price before its try/except.  The client
is None until connect succeeds (attribute access then raises); a
successful client call returns the stored string or None; an empty
string is falsy and skips decoding; a failing json.loads raises. -/
def get_price_exc {V : Type} (client : Option (String → Except Unit (Option String)))
    (decode : String → Option V) (symbol : String) : Except Unit (Option V) :=
  match client with
  | none => Except.error ()
  | some get0 =>
    match get0 ("price:" ++ symbol) with
    | Except.error e => Except.error e
    | Except.ok none => Except.ok none
    | Except.ok (some s) =>
      if s = "" then Except.ok none
      else
        match decode s with
        | none => Except.error ()
        | some v => Except.ok (some v)

/-- RedisService.get_price with its try/except: every failure is caught
and becomes None. -/
def get_price {V : Type} (client : Option (String → Except Unit (Option String)))
    (decode : String → Option V) (symbol : String) : Option V :=
  match get_price_exc client decode symbol with
  | Except.ok r => r
  | Except.error _ => none

/-- Body of RedisService.get_market_data before its try/except (same
shape as get_price with the market key namespace). -/
def get_market_data_exc {V : Type} (client : Option (String → Except Unit (Option String)))
    (decode : String → Option V) (symbol : String) : Except Unit (Option V) :=
  match client with
  | none => Except.error ()
  | some get0 =>
    match get0 ("market:" ++ symbol) with
    | Except.error e => Except.error e
    | Except.ok none => Except.ok none
    | Except.ok (some s) =>
      if s = "" then Except.ok none
      else
        match decode s with
        | none => Except.error ()
        | some v => Except.ok (some v)

/-- RedisService.get_market_data with its try/except. -/
def get_market_data {V : Type} (client : Option (String → Except Unit (Option String)))
    (decode : String → Option V) (symbol : String) : Option V :=
  match get_market_data_exc client decode symbol with
  | Except.ok r => r
  | Except.error _ => none

/-- Body of RedisService.get_exchange_data before its try/except. -/
def get_exchange_data_exc {V : Type} (client : Option (String → Except Unit (Option String)))
    (decode : String → Option V) (exchange symbol : String) : Except Unit (Option V) :=
  match client with
  | none => Except.error ()
  | some get0 =>
    match get0 ("exchange:" ++ exchange ++ ":" ++ symbol) with
    | Except.error e => Except.error e
    | Except.ok none => Except.ok none
    | Except.ok (some s) =>
      if s = "" then Except.ok none
      else
        match decode s with
        | none => Except.error ()
        | some v => Except.ok (some v)

/-- RedisService.get_exchange_data with its try/except. -/
def get_exchange_data {V : Type} (client : Option (String → Except Unit (Option String)))
    (decode : String → Option V) (exchange symbol : String) : Option V :=
  match get_exchange_data_exc client decode exchange symbol with
  | Except.ok r => r
  | Except.error _ => none

/-- Body of RedisService.get_cache before its try/except (raw key). -/
def get_cache_exc {V : Type} (client : Option (String → Except Unit (Option String)))
    (decode : String → Option V) (key : String) : Except Unit (Option V) :=
  match client with
  | none => Except.error ()
  | some get0 =>
    match get0 key with
    | Except.error e => Except.error e
    | Except.ok none => Except.ok none
    | Except.ok (some s) =>
      if s = "" then Except.ok none
      else
        match decode s with
        | none => Except.error ()
        | some v => Except.ok (some v)

/-- RedisService.get_cache with its try/except. -/
def get_cache {V : Type} (client : Option (String → Except Unit (Option String)))
    (decode : String → Option V) (key : String) : Option V :=
  match get_cache_exc client decode key with
  | Except.ok r => r
  | Except.error _ => none

/-- The list comprehension of get_price_history: json.loads every item,
raising on the first undecodable one. -/
def decodeAll {V : Type} (decode : String → Option V) : List String → Except Unit (List V)
  | [] => Except.ok []
  | s :: rest =>
    match decode s with
    | none => Except.error ()
    | some v =>
      match decodeAll decode rest with
      | Except.error e => Except.error e
      | Except.ok l => Except.ok (v :: l)

/-- Body of RedisService.get_price_history before its try/except: an
lrange on the history key bounded by the limit, then decoding every
item. -/
def get_price_history_exc {V : Type}
    (client : Option (String → ℕ → Except Unit (List String)))
    (decode : String → Option V) (symbol : String) (limit : ℕ) : Except Unit (List V) :=
  match client with
  | none => Except.error ()
  | some lrange0 =>
    match lrange0 ("price_history:" ++ symbol) limit with
    | Except.error e => Except.error e
    | Except.ok items => decodeAll decode items

/-- RedisService.get_price_history with its try/except: every failure
is caught and becomes the empty list. -/
def get_price_history {V : Type}
    (client : Option (String → ℕ → Except Unit (List String)))
    (decode : String → Option V) (symbol : String) (limit : ℕ) : List V :=
  match get_price_history_exc client decode symbol limit with
  | Except.ok l => l
  | Except.error _ => []

lemma decodeAll_error_of_bad {V : Type} (decode : String → Option V) :
    ∀ (items : List String) (s : String), s ∈ items → decode s = none →
    decodeAll decode items = Except.error () := by
  intro items
  induction items with
  | nil => intro s hs; simp at hs
  | cons a rest ih =>
    intro s hs hd
    rcases List.mem_cons.mp hs with hs | hs
    · subst hs
      simp [decodeAll, hd]
    · cases hda : decode a with
      | none => simp [decodeAll, hda]
      | some v =>
        simp [decodeAll, hda, ih s hs hd]

/-- C10: every RedisService read is total at its interface: with the
client unavailable, with the underlying read failing, or with stored
data that fails to decode, each of get_price, get_market_data,
get_exchange_data, get_cache returns None and get_price_history
returns the empty list — no failure propagates to the caller. -/
theorem redis_readers_total {V : Type} (decode : String → Option V)
    (cl : String → Except Unit (Option String))
    (clh : String → ℕ → Except Unit (List String))
    (key symbol exchange : String) (limit : ℕ) :
    (get_price none decode symbol = none)
    ∧ (get_market_data none decode symbol = none)
    ∧ (get_exchange_data none decode exchange symbol = none)
    ∧ (get_cache none decode key = none)
    ∧ (get_price_history none decode symbol limit = [])
    ∧ (cl ("price:" ++ symbol) = Except.error () →
        get_price (some cl) decode symbol = none)
    ∧ (cl ("market:" ++ symbol) = Except.error () →
        get_market_data (some cl) decode symbol = none)
    ∧ (cl ("exchange:" ++ exchange ++ ":" ++ symbol) = Except.error () →
        get_exchange_data (some cl) decode exchange symbol = none)
    ∧ (cl key = Except.error () → get_cache (some cl) decode key = none)
    ∧ (clh ("price_history:" ++ symbol) limit = Except.error () →
        get_price_history (some clh) decode symbol limit = [])
    ∧ (∀ s, cl ("price:" ++ symbol) = Except.ok (some s) → decode s = none →
        get_price (some cl) decode symbol = none)
    ∧ (∀ s, cl ("market:" ++ symbol) = Except.ok (some s) → decode s = none →
        get_market_data (some cl) decode symbol = none)
    ∧ (∀ s, cl ("exchange:" ++ exchange ++ ":" ++ symbol) = Except.ok (some s) →
        decode s = none → get_exchange_data (some cl) decode exchange symbol = none)
    ∧ (∀ s, cl key = Except.ok (some s) → decode s = none →
        get_cache (some cl) decode key = none)
    ∧ (∀ items s, clh ("price_history:" ++ symbol) limit = Except.ok items →
        s ∈ items → decode s = none →
        get_price_history (some clh) decode symbol limit = []) := by
  refine ⟨rfl, rfl, rfl, rfl, rfl, ?_, ?_, ?_, ?_, ?_, ?_, ?_, ?_, ?_, ?_⟩
  · intro h
    unfold get_price get_price_exc
    dsimp only
    rw [h]
  · intro h
    unfold get_market_data get_market_data_exc
    dsimp only
    rw [h]
  · intro h
    unfold get_exchange_data get_exchange_data_exc
    dsimp only
    rw [h]
  · intro h
    unfold get_cache get_cache_exc
    dsimp only
    rw [h]
  · intro h
    unfold get_price_history get_price_history_exc
    dsimp only
    rw [h]
  · intro s h hd
    unfold get_price get_price_exc
    dsimp only
    rw [h]
    by_cases hs : s = ""
    · simp [hs]
    · simp [hs, hd]
  · intro s h hd
    unfold get_market_data get_market_data_exc
    dsimp only
    rw [h]
    by_cases hs : s = ""
    · simp [hs]
    · simp [hs, hd]
  · intro s h hd
    unfold get_exchange_data get_exchange_data_exc
    dsimp only
    rw [h]
    by_cases hs : s = ""
    · simp [hs]
    · simp [hs, hd]
  · intro s h hd
    unfold get_cache get_cache_exc
    dsimp only
    rw [h]
    by_cases hs : s = ""
    · simp [hs]
    · simp [hs, hd]
  · intro items s h hs hd
    unfold get_price_history get_price_history_exc
    dsimp only
    rw [h]
    dsimp only
    rw [decodeAll_error_of_bad decode items s hs hd]

/-- C10 witness: the totality conjuncts evaluated at a missing client,
an erroring client, and an undecodable stored item. -/
theorem redis_readers_total_witness :
    (get_price none (fun _ => (none : Option ℕ)) "BTC/USDT" = none)
    ∧ (get_price (some (fun _ => Except.error ())) (fun _ => (none : Option ℕ)) "BTC/USDT" = none)
    ∧ (get_cache (some (fun _ => Except.ok (some "bad"))) (fun _ => (none : Option ℕ)) "k" = none)
    ∧ (get_price_history (some (fun _ _ => Except.ok ["bad"]))
        (fun _ => (none : Option ℕ)) "BTC/USDT" 20 = []) := by
  obtain ⟨w1, _, _, _, _, w6, _, _, _, _, _, _, _, w14, w15⟩ :=
    redis_readers_total (fun _ => (none : Option ℕ)) (fun _ => Except.error ())
      (fun _ _ => Except.ok ["bad"]) "k" "BTC/USDT" "binance" 20
  refine ⟨w1, w6 rfl, ?_, w15 ["bad"] "bad" rfl (by simp) rfl⟩
  obtain ⟨_, _, _, _, _, _, _, _, _, _, _, _, _, v14, _⟩ :=
    redis_readers_total (fun _ => (none : Option ℕ)) (fun _ => Except.ok (some "bad"))
      (fun _ _ => Except.ok ["bad"]) "k" "BTC/USDT" "binance" 20
  exact v14 "bad" rfl rfl

end CryptoMarketData
